import Mathlib

/-! # rewrite-request-body: the `ServeHTTP` middleware

A shallow embedding of `src/main.go`.  The handler is a finite decision tree over one request;
every statement of the source that touches the request, the body stream, the config or the next
handler is kept, and leaves an `Event` in a trace, so that "read", "closed", "delegated" can be
stated about a run.

Conventions of the embedding:

* Go `string` is `String`, `[]byte` is `List UInt8`, `int64` is `Int`.
* A Go `map[string]T` is an association list read through `mapGet` (first binding wins), written
  through `mapSet` and `mapDelete`; a `nil` map is `none`.
* `*http.Request` and `*Config` are `Option`s (`none` is the nil pointer).
* `encoding/json` and the Unicode case tables are not part of the repository: they are the
  fields of `Lib`, and the theorems hold for every `Lib`.  `fragLib` is one instance, used to
  run the handler on concrete requests.
-/

namespace Rewrite

/-! ## Data model -/

/-- A Go byte slice. -/
abbrev Bytes := List UInt8

/-- What `json.Unmarshal` stores in an `interface{}`: `nil`, `bool`, `float64`, `string`,
`[]interface{}` or `map[string]interface{}`.  The number representation `ν` is left open
(`float64` in Go): the handler never looks inside a number. -/
inductive Value (ν : Type) where
  | null : Value ν
  | bool (b : Bool) : Value ν
  | number (n : ν) : Value ν
  | string (s : String) : Value ν
  | array (xs : List (Value ν)) : Value ν
  | object (kvs : List (String × Value ν)) : Value ν

/-- The library functions `ServeHTTP` calls whose code is outside the repository. -/
structure Lib (ν : Type) where
  /-- The function `unicode.ToLower`, from the Unicode case tables. -/
  lowerRune : Char → Char
  /-- The call `json.Unmarshal(data, &anyJSON)`; `none` is a non-nil error. -/
  Unmarshal : Bytes → Option (Value ν)
  /-- The call `json.Marshal(obj)` on a `map[string]interface{}`; `none` is a non-nil error. -/
  Marshal : List (String × Value ν) → Option Bytes

/-- The function `strings.ToLower`: every rune is mapped through `unicode.ToLower`. -/
def Lib.ToLower {ν : Type} (L : Lib ν) (s : String) : String :=
  String.mk (s.data.map L.lowerRune)

/-- An `io.ReadCloser`: `data` is what is still to be delivered, `failAt = some n` makes the
read fail after `n` more bytes, `closed` counts the calls of `Close`. -/
structure Stream where
  data : Bytes
  failAt : Option Nat
  closed : Nat
deriving DecidableEq

/-- The type `http.Header`, a `map[string][]string` that may be nil. -/
abbrev Header := Option (List (String × List String))

/-- The fields of `http.Request` the handler reads or writes, and two it never touches. -/
structure Request where
  Method : String
  URL : String
  Header : Header
  Body : Option Stream
  ContentLength : Int
  TransferEncoding : List String
deriving DecidableEq

/-- The plugin configuration. -/
structure Config where
  OldKey : String
  NewKey : String
deriving DecidableEq

/-- The middleware instance; `next` is the opaque next handler, whose calls are recorded in the
trace. -/
structure RewriteRequestBody where
  name : String
  config : Option Config
deriving DecidableEq

/-- One observable step of a run of `ServeHTTP`. -/
inductive Event where
  /-- The call `req.Header.Get(key)`. -/
  | headerGet (key : String)
  /-- A read of `m.config.OldKey` and `m.config.NewKey`. -/
  | configRead
  /-- The call `io.ReadAll(req.Body)`. -/
  | readAll
  /-- The call `req.Body.Close()` on the original stream, with the stream as it is after it. -/
  | close (after : Stream)
  /-- The call `json.Unmarshal(originalBody, &anyJSON)`. -/
  | unmarshal
  /-- The call `json.Marshal(obj)`. -/
  | marshal
  /-- The assignment `req.Body = io.NopCloser(bytes.NewReader(b))`. -/
  | setBody (b : Bytes)
  /-- The assignment `req.ContentLength = n`. -/
  | setContentLength (n : Int)
  /-- The call `req.Header.Set(key, value)`. -/
  | headerSet (key value : String)
  /-- The assignment `req.TransferEncoding = nil`. -/
  | clearTransferEncoding
  /-- The call `m.next.ServeHTTP(rw, req)`, with the request as it is at the call. -/
  | next (req : Option Request)
deriving DecidableEq

/-- The result of one call of `ServeHTTP`: what happened, in order, and whether the run ended
in a run-time panic (nil dereference, write to a nil map) instead of returning. -/
structure Outcome where
  trace : List Event
  panicked : Bool
deriving DecidableEq

/-! ## Go maps -/

/-- Map lookup `m[k]` with the comma-ok result. -/
def mapGet {α : Type} : List (String × α) → String → Option α
  | [], _ => none
  | (k1, v) :: m, k => if k1 = k then some v else mapGet m k

/-- The builtin `delete(m, k)`. -/
def mapDelete {α : Type} : List (String × α) → String → List (String × α)
  | [], _ => []
  | (k1, v) :: m, k => if k1 = k then mapDelete m k else (k1, v) :: mapDelete m k

/-- The assignment `m[k] = v`. -/
def mapSet {α : Type} (m : List (String × α)) (k : String) (v : α) : List (String × α) :=
  (k, v) :: mapDelete m k

/-- The builtin `len(m)`: the number of distinct keys. -/
def mapLen {α : Type} (m : List (String × α)) : Nat :=
  (m.map Prod.fst).toFinset.card

/-! ## Library functions with a closed definition -/

/-- The predicate `unicode.IsSpace`. -/
def isSpace (c : Char) : Bool :=
  let n := c.toNat
  (9 ≤ n && n ≤ 13) || n = 0x20 || n = 0x85 || n = 0xA0 || n = 0x1680
    || (0x2000 ≤ n && n ≤ 0x200A) || n = 0x2028 || n = 0x2029 || n = 0x202F
    || n = 0x205F || n = 0x3000

/-- The function `strings.TrimSpace`. -/
def TrimSpace (s : String) : String :=
  String.mk (((s.data.dropWhile isSpace).reverse.dropWhile isSpace).reverse)

/-- Width in bytes of the white-space rune whose UTF-8 encoding `b` starts with; `0` when `b`
does not start with one. -/
def spaceWidth : Bytes → Nat
  | [] => 0
  | c :: rest =>
    if (9 ≤ c.toNat ∧ c.toNat ≤ 13) ∨ c.toNat = 0x20 then 1
    else match rest with
      | [] => 0
      | d :: rest2 =>
        if c.toNat = 0xC2 ∧ (d.toNat = 0x85 ∨ d.toNat = 0xA0) then 2
        else match rest2 with
          | [] => 0
          | e :: _ =>
            if c.toNat = 0xE1 ∧ d.toNat = 0x9A ∧ e.toNat = 0x80 then 3
            else if c.toNat = 0xE2 ∧ d.toNat = 0x80 ∧
                ((0x80 ≤ e.toNat ∧ e.toNat ≤ 0x8A) ∨ e.toNat = 0xA8 ∨ e.toNat = 0xA9
                  ∨ e.toNat = 0xAF) then 3
            else if c.toNat = 0xE2 ∧ d.toNat = 0x81 ∧ e.toNat = 0x9F then 3
            else if c.toNat = 0xE3 ∧ d.toNat = 0x80 ∧ e.toNat = 0x80 then 3
            else 0

/-- Width in bytes of the white-space rune whose UTF-8 encoding ends the reversed slice `r`. -/
def spaceWidthRev (r : Bytes) : Nat :=
  if spaceWidth (r.take 1).reverse = 1 then 1
  else if spaceWidth (r.take 2).reverse = 2 then 2
  else if spaceWidth (r.take 3).reverse = 3 then 3
  else 0

/-- Drops leading white-space runes, at most `fuel` of them. -/
def trimLeftSpace : Nat → Bytes → Bytes
  | 0, b => b
  | fuel + 1, b => if spaceWidth b = 0 then b else trimLeftSpace fuel (b.drop (spaceWidth b))

/-- Drops trailing white-space runes of the reversed slice `r`, at most `fuel` of them. -/
def trimRightSpaceRev : Nat → Bytes → Bytes
  | 0, r => r
  | fuel + 1, r =>
    if spaceWidthRev r = 0 then r else trimRightSpaceRev fuel (r.drop (spaceWidthRev r))

/-- The function `bytes.TrimSpace`: a rune is trimmed when it is the valid UTF-8 encoding of a
rune with `unicode.IsSpace`. -/
def bytesTrimSpace (b : Bytes) : Bytes :=
  (trimRightSpaceRev b.length (trimLeftSpace b.length b).reverse).reverse

/-- The function `strings.Contains` on the characters of the two strings. -/
def containsChars : List Char → List Char → Bool
  | [], p => p.isEmpty
  | c :: cs, p => p.isPrefixOf (c :: cs) || containsChars cs p

/-- The function `strings.Contains`. -/
def Contains (s substr : String) : Bool :=
  containsChars s.data substr.data

/-- The call `strconv.FormatInt(i, 10)`. -/
def FormatInt (i : Int) : String :=
  if i < 0 then "-" ++ Nat.repr i.natAbs else Nat.repr i.toNat

/-- The method `Header.Get` for a key that is already in canonical form. -/
def Header.Get (h : Header) (key : String) : String :=
  match h with
  | none => ""
  | some m =>
    match mapGet m key with
    | some (v :: _) => v
    | _ => ""

/-- The method `Header.Set` for a key in canonical form; `none` is the panic of an assignment
to an entry of a nil map. -/
def Header.Set (h : Header) (key value : String) : Option Header :=
  match h with
  | none => none
  | some m => some (some (mapSet m key [value]))

/-- The call `io.ReadAll(r)`: the bytes read, whether the read ended with an error, and the
stream afterwards. -/
def ReadAll (s : Stream) : Bytes × Bool × Stream :=
  match s.failAt with
  | none => (s.data, false, { s with data := [] })
  | some n => (s.data.take n, true, { s with data := s.data.drop n, failAt := some 0 })

/-- The method `Close` of the stream. -/
def Stream.Close (s : Stream) : Stream :=
  { s with closed := s.closed + 1 }

/-- The value `io.NopCloser(bytes.NewReader(b))`. -/
def NopCloser (b : Bytes) : Stream :=
  { data := b, failAt := none, closed := 0 }

/-! ## The handler -/

/-- The block the source repeats wherever it (re)establishes the body (lines 81-86, 96-101,
118-123, 126-131, 135-140 and 144-149): install a fresh reader over `b`, set `ContentLength`,
and when it is non-negative set the `Content-Length` header and clear `TransferEncoding`.
The first component is `none` when `Header.Set` panics. -/
def installBody (req : Request) (b : Bytes) : Option Request × List Event :=
  let req1 : Request := { req with Body := some (NopCloser b) }
  let req2 : Request := { req1 with ContentLength := Int.ofNat b.length }
  if 0 ≤ req2.ContentLength then
    match Header.Set req2.Header "Content-Length" (FormatInt req2.ContentLength) with
    | none =>
      (none, [.setBody b, .setContentLength req2.ContentLength,
        .headerSet "Content-Length" (FormatInt req2.ContentLength)])
    | some h =>
      (some { req2 with Header := h, TransferEncoding := [] },
        [.setBody b, .setContentLength req2.ContentLength,
          .headerSet "Content-Length" (FormatInt req2.ContentLength), .clearTransferEncoding])
  else
    (some req2, [.setBody b, .setContentLength req2.ContentLength])

/-- The end of a path that installed a body: the call `m.next.ServeHTTP(rw, req)`, unless the
installation panicked. -/
def deliver (pre : List Event) (r : Option Request × List Event) : Outcome :=
  match r.1 with
  | some req => ⟨pre ++ r.2 ++ [.next (some req)], false⟩
  | none => ⟨pre ++ r.2, true⟩

/-- The method `(*RewriteRequestBody).ServeHTTP` (lines 43-153). -/
def ServeHTTP {ν : Type} (L : Lib ν) (m : RewriteRequestBody) (req : Option Request) : Outcome :=
  match req with
  | none => ⟨[.next none], false⟩
  | some req =>
    match req.Body with
    | none => ⟨[.next (some req)], false⟩
    | some body =>
      let contentType := req.Header.Get "Content-Type"
      if (!Contains (L.ToLower contentType) "application/json") then
        ⟨[.headerGet "Content-Type", .next (some req)], false⟩
      else
        let enc := req.Header.Get "Content-Encoding"
        if enc ≠ "" ∧ L.ToLower enc ≠ "identity" then
          ⟨[.headerGet "Content-Type", .headerGet "Content-Encoding", .next (some req)], false⟩
        else
          match m.config with
          | none => ⟨[.headerGet "Content-Type", .headerGet "Content-Encoding"], true⟩
          | some config =>
            let oldKey := TrimSpace config.OldKey
            let newKey := TrimSpace config.NewKey
            if oldKey = "" ∨ newKey = "" ∨ oldKey = newKey then
              ⟨[.headerGet "Content-Type", .headerGet "Content-Encoding", .configRead,
                .next (some req)], false⟩
            else
              match ReadAll body with
              | (_, true, body1) =>
                ⟨[.headerGet "Content-Type", .headerGet "Content-Encoding", .configRead,
                  .readAll, .next (some { req with Body := some body1 })], false⟩
              | (originalBody, false, body1) =>
                let req : Request := { req with Body := some body1.Close }
                let pre : List Event :=
                  [.headerGet "Content-Type", .headerGet "Content-Encoding", .configRead,
                    .readAll, .close body1.Close]
                if (bytesTrimSpace originalBody).length = 0 then
                  deliver pre (installBody req originalBody)
                else
                  match L.Unmarshal originalBody with
                  | none => deliver (pre ++ [.unmarshal]) (installBody req originalBody)
                  | some (.object obj) =>
                    match mapGet obj oldKey with
                    | some val =>
                      match L.Marshal (mapDelete (mapSet obj newKey val) oldKey) with
                      | some newBytes =>
                        deliver (pre ++ [.unmarshal, .marshal]) (installBody req newBytes)
                      | none =>
                        deliver (pre ++ [.unmarshal, .marshal]) (installBody req originalBody)
                    | none => deliver (pre ++ [.unmarshal]) (installBody req originalBody)
                  | some _ => deliver (pre ++ [.unmarshal]) (installBody req originalBody)

/-- The function `CreateConfig` (lines 22-24): the default configuration. -/
def CreateConfig : Config :=
  { OldKey := "", NewKey := "" }

/-- The function `New` (lines 34-40): it stores its arguments and never fails.  The context is
not used, the next handler is opaque. -/
def New (config : Option Config) (name : String) : Except String RewriteRequestBody :=
  .ok { name := name, config := config }

/-! ## A codec for a fragment of JSON

`fragUnmarshal` and `fragMarshal` follow `encoding/json` on documents nested at most 64 deep
and built from objects, arrays, `true`, `false`, `null`, integer literals of magnitude below
`2^53` (no `-0`) and strings of printable ASCII characters other than the double quote, the
backslash, `<`, `>` and `&`; outside this fragment they report an error.  Numbers are kept as
`Int`.  They instantiate `Lib`, so that the handler can be run on concrete requests. -/

/-- The four white-space bytes of the JSON grammar. -/
def isJSONSpace (c : UInt8) : Bool :=
  c = 0x20 || c = 0x09 || c = 0x0A || c = 0x0D

/-- Skips JSON white space. -/
def skipWS : Bytes → Bytes
  | [] => []
  | c :: r => if isJSONSpace c then skipWS r else c :: r

/-- Reads a run of decimal digits into `acc`. -/
def parseDigits : Bytes → Nat → Nat × Bytes
  | [], acc => (acc, [])
  | c :: r, acc =>
    if 0x30 ≤ c ∧ c ≤ 0x39 then parseDigits r (acc * 10 + (c.toNat - 0x30)) else (acc, c :: r)

/-- Reads an unsigned integer literal below `2^53`: `0`, or a non-zero digit followed by
digits, not followed by a fraction or an exponent. -/
def parseNat : Bytes → Option (Nat × Bytes)
  | [] => none
  | c :: r =>
    if c = 0x30 then
      match r with
      | d :: _ =>
        if (0x30 ≤ d ∧ d ≤ 0x39) ∨ d = 0x2E ∨ d = 0x65 ∨ d = 0x45 then none
        else some (0, r)
      | [] => some (0, r)
    else if 0x31 ≤ c ∧ c ≤ 0x39 then
      match parseDigits (c :: r) 0 with
      | (n, d :: r2) =>
        if d = 0x2E ∨ d = 0x65 ∨ d = 0x45 ∨ 2 ^ 53 ≤ n then none else some (n, d :: r2)
      | (n, []) => if 2 ^ 53 ≤ n then none else some (n, [])
    else none

/-- Reads the rest of a string literal, after its opening quote. -/
def parseString : Bytes → List Char → Option (String × Bytes)
  | [], _ => none
  | c :: r, acc =>
    if c = 0x22 then some (String.mk acc.reverse, r)
    else if c = 0x5C ∨ c < 0x20 ∨ 0x7F ≤ c ∨ c = 0x3C ∨ c = 0x3E ∨ c = 0x26 then none
    else parseString r (Char.ofNat c.toNat :: acc)

mutual

/-- Reads one JSON value, with leading white space. -/
def parseValue : Nat → Bytes → Option (Value Int × Bytes)
  | 0, _ => none
  | fuel + 1, b =>
    match skipWS b with
    | [] => none
    | c :: r =>
      if c = 0x7B then
        match skipWS r with
        | 0x7D :: r2 => some (.object [], r2)
        | r2 => parseMembers fuel r2 []
      else if c = 0x5B then
        match skipWS r with
        | 0x5D :: r2 => some (.array [], r2)
        | r2 => parseElements fuel r2 []
      else if c = 0x22 then
        match parseString r [] with
        | some (s, r2) => some (.string s, r2)
        | none => none
      else if c = 0x2D then
        match parseNat r with
        | some (n, r2) => if n = 0 then none else some (.number (-(n : Int)), r2)
        | none => none
      else if [0x74, 0x72, 0x75, 0x65].isPrefixOf (c :: r) then some (.bool true, r.drop 3)
      else if [0x66, 0x61, 0x6C, 0x73, 0x65].isPrefixOf (c :: r) then
        some (.bool false, r.drop 4)
      else if [0x6E, 0x75, 0x6C, 0x6C].isPrefixOf (c :: r) then some (.null, r.drop 3)
      else
        match parseNat (c :: r) with
        | some (n, r2) => some (.number (n : Int), r2)
        | none => none

/-- Reads the members of an object up to its closing brace; a repeated key keeps its last
value. -/
def parseMembers : Nat → Bytes → List (String × Value Int) → Option (Value Int × Bytes)
  | 0, _, _ => none
  | fuel + 1, b, acc =>
    match skipWS b with
    | 0x22 :: r =>
      match parseString r [] with
      | none => none
      | some (k, r2) =>
        match skipWS r2 with
        | 0x3A :: r3 =>
          match parseValue fuel r3 with
          | none => none
          | some (v, r4) =>
            match skipWS r4 with
            | 0x2C :: r5 => parseMembers fuel r5 (mapSet acc k v)
            | 0x7D :: r5 => some (.object (mapSet acc k v), r5)
            | _ => none
        | _ => none
    | _ => none

/-- Reads the elements of an array up to its closing bracket. -/
def parseElements : Nat → Bytes → List (Value Int) → Option (Value Int × Bytes)
  | 0, _, _ => none
  | fuel + 1, b, acc =>
    match parseValue fuel b with
    | none => none
    | some (v, r) =>
      match skipWS r with
      | 0x2C :: r2 => parseElements fuel r2 (v :: acc)
      | 0x5D :: r2 => some (.array (v :: acc).reverse, r2)
      | _ => none

end

/-- Decodes a document of the fragment: one value, then white space only. -/
def fragUnmarshal (b : Bytes) : Option (Value Int) :=
  match parseValue (2 * b.length + 2) b with
  | some (v, r) => if skipWS r = [] then some v else none
  | none => none

/-- The bytes of an ASCII string. -/
def asciiBytes (s : String) : Bytes :=
  s.data.map (fun c => UInt8.ofNat c.toNat)

/-- Lexicographic order of two strings by code point, the order of `<` on valid UTF-8 strings
in Go. -/
def charsLt : List Char → List Char → Bool
  | _, [] => false
  | [], _ :: _ => true
  | a :: as, b :: bs => decide (a.toNat < b.toNat) || (decide (a.toNat = b.toNat) && charsLt as bs)

/-- Inserts a member into a list of members sorted by key, in place of the member with the
same key if there is one. -/
def insertMember {α : Type} (k : String) (v : α) : List (String × α) → List (String × α)
  | [] => [(k, v)]
  | (k1, v1) :: m =>
    if charsLt k.data k1.data then (k, v) :: (k1, v1) :: m
    else if k = k1 then (k, v) :: m
    else (k1, v1) :: insertMember k v m

/-- The members of a map, one per key, sorted by key as `json.Marshal` writes them. -/
def sortMembers {α : Type} : List (String × α) → List (String × α)
  | [] => []
  | (k, v) :: m => insertMember k v (sortMembers m)

/-- Writes a string literal of the fragment. -/
def writeString (s : String) : Option Bytes :=
  if s.data.all (fun c => 0x20 ≤ c.toNat ∧ c.toNat < 0x7F ∧ c.toNat ≠ 0x22
      ∧ c.toNat ≠ 0x5C ∧ c.toNat ≠ 0x3C ∧ c.toNat ≠ 0x3E ∧ c.toNat ≠ 0x26) then
    some (0x22 :: asciiBytes s ++ [0x22])
  else none

mutual

/-- Writes one value. -/
def writeValue : Nat → Value Int → Option Bytes
  | 0, _ => none
  | _ + 1, .null => some (asciiBytes "null")
  | _ + 1, .bool true => some (asciiBytes "true")
  | _ + 1, .bool false => some (asciiBytes "false")
  | _ + 1, .number n => if n.natAbs < 2 ^ 53 then some (asciiBytes (FormatInt n)) else none
  | _ + 1, .string s => writeString s
  | fuel + 1, .array xs =>
    match writeElements fuel xs with
    | some b => some (0x5B :: b ++ [0x5D])
    | none => none
  | fuel + 1, .object kvs =>
    match writeMembers fuel (sortMembers kvs) with
    | some b => some (0x7B :: b ++ [0x7D])
    | none => none

/-- Writes the elements of an array, separated by commas. -/
def writeElements : Nat → List (Value Int) → Option Bytes
  | 0, _ => none
  | _ + 1, [] => some []
  | fuel + 1, [v] => writeValue fuel v
  | fuel + 1, v :: vs =>
    match writeValue fuel v, writeElements fuel vs with
    | some b, some bs => some (b ++ 0x2C :: bs)
    | _, _ => none

/-- Writes the members of an object, separated by commas. -/
def writeMembers : Nat → List (String × Value Int) → Option Bytes
  | 0, _ => none
  | _ + 1, [] => some []
  | fuel + 1, [(k, v)] =>
    match writeString k, writeValue fuel v with
    | some bk, some bv => some (bk ++ 0x3A :: bv)
    | _, _ => none
  | fuel + 1, (k, v) :: kvs =>
    match writeString k, writeValue fuel v, writeMembers fuel kvs with
    | some bk, some bv, some bs => some (bk ++ 0x3A :: bv ++ 0x2C :: bs)
    | _, _, _ => none

end

/-- Encodes a map of the fragment; nesting deeper than 64 levels is reported as an error. -/
def fragMarshal (kvs : List (String × Value Int)) : Option Bytes :=
  writeValue 64 (.object kvs)

/-- The fragment codec with the ASCII case table. -/
def fragLib : Lib Int :=
  { lowerRune := Char.toLower
    Unmarshal := fragUnmarshal
    Marshal := fragMarshal }

/-- The fragment codec with an encoder that always reports an error. -/
def failingLib : Lib Int :=
  { fragLib with Marshal := fun _ => none }

/-! ## Observations on a run, and the vocabulary of the claims -/

/-- Whether the event is a call of the next handler. -/
def Event.isNext : Event → Bool
  | .next _ => true
  | _ => false

/-- The requests handed to the next handler, in call order. -/
def Outcome.delegated (o : Outcome) : List (Option Request) :=
  o.trace.filterMap (fun e => match e with
    | .next r => some r
    | _ => none)

/-- The bytes a stream delivers to a reader that reads it to the end. -/
def Stream.remaining (s : Stream) : Bytes :=
  match s.failAt with
  | none => s.data
  | some n => s.data.take n

/-- The configured keys are usable: both non-empty and different after trimming (the negation
of the test of line 64). -/
def ValidConfig (cfg : Config) : Prop :=
  TrimSpace cfg.OldKey ≠ "" ∧ TrimSpace cfg.NewKey ≠ "" ∧
    TrimSpace cfg.OldKey ≠ TrimSpace cfg.NewKey

instance (cfg : Config) : Decidable (ValidConfig cfg) :=
  inferInstanceAs (Decidable (TrimSpace cfg.OldKey ≠ "" ∧ TrimSpace cfg.NewKey ≠ "" ∧
    TrimSpace cfg.OldKey ≠ TrimSpace cfg.NewKey))

/-- The `Content-Type` header contains `application/json` in some letter case (line 51). -/
def JSONContentType {ν : Type} (L : Lib ν) (req : Request) : Prop :=
  Contains (L.ToLower (req.Header.Get "Content-Type")) "application/json" = true

instance {ν : Type} (L : Lib ν) (req : Request) : Decidable (JSONContentType L req) :=
  inferInstanceAs (Decidable
    (Contains (L.ToLower (req.Header.Get "Content-Type")) "application/json" = true))

/-- The `Content-Encoding` header is empty or is `identity` in some letter case (line 56). -/
def IdentityEncoding {ν : Type} (L : Lib ν) (req : Request) : Prop :=
  req.Header.Get "Content-Encoding" = "" ∨
    L.ToLower (req.Header.Get "Content-Encoding") = "identity"

instance {ν : Type} (L : Lib ν) (req : Request) : Decidable (IdentityEncoding L req) :=
  inferInstanceAs (Decidable (req.Header.Get "Content-Encoding" = "" ∨
    L.ToLower (req.Header.Get "Content-Encoding") = "identity"))

/-- An eligible request: it passes the content-type, content-encoding and configuration gates. -/
def Eligible {ν : Type} (L : Lib ν) (cfg : Config) (req : Request) : Prop :=
  JSONContentType L req ∧ IdentityEncoding L req ∧ ValidConfig cfg

instance {ν : Type} (L : Lib ν) (cfg : Config) (req : Request) :
    Decidable (Eligible L cfg req) :=
  inferInstanceAs (Decidable (JSONContentType L req ∧ IdentityEncoding L req ∧ ValidConfig cfg))

/-- The entry of the header map under `key`; a nil map has no entries. -/
def Header.entry (h : Header) (key : String) : Option (List String) :=
  match h with
  | none => none
  | some m => mapGet m key

/-- Whether the event writes to the request. -/
def Event.isWrite : Event → Bool
  | .setBody _ => true
  | .setContentLength _ => true
  | .headerSet _ _ => true
  | .clearTransferEncoding => true
  | _ => false

/-- The bytes the next handler reads from the body of the request (none for a nil body). -/
def Request.bodyBytes (r : Request) : Bytes :=
  match r.Body with
  | some s => s.remaining
  | none => []

/-- The request after a body `b` has been installed over header map `h`: fresh reader, length,
`Content-Length` header, no transfer encoding. -/
def withBody (req : Request) (h : List (String × List String)) (b : Bytes) : Request :=
  { req with
    Body := some (NopCloser b)
    ContentLength := Int.ofNat b.length
    Header := some (mapSet h "Content-Length" [FormatInt (Int.ofNat b.length)])
    TransferEncoding := [] }

/-- The UTF-8 encodings of the runes with `unicode.IsSpace`. -/
def spaceEncodings : List Bytes :=
  [[0x09], [0x0A], [0x0B], [0x0C], [0x0D], [0x20], [0xC2, 0x85], [0xC2, 0xA0],
    [0xE1, 0x9A, 0x80], [0xE2, 0x80, 0x80], [0xE2, 0x80, 0x81], [0xE2, 0x80, 0x82],
    [0xE2, 0x80, 0x83], [0xE2, 0x80, 0x84], [0xE2, 0x80, 0x85], [0xE2, 0x80, 0x86],
    [0xE2, 0x80, 0x87], [0xE2, 0x80, 0x88], [0xE2, 0x80, 0x89], [0xE2, 0x80, 0x8A],
    [0xE2, 0x80, 0xA8], [0xE2, 0x80, 0xA9], [0xE2, 0x80, 0xAF], [0xE2, 0x81, 0x9F],
    [0xE3, 0x80, 0x80]]

/-- The slice is empty or consists of white space only: it is a sequence of encoded white-space
runes. -/
inductive WhiteSpaceOnly : Bytes → Prop where
  | nil : WhiteSpaceOnly []
  | cons (e rest : Bytes) : e ∈ spaceEncodings → WhiteSpaceOnly rest →
      WhiteSpaceOnly (e ++ rest)

/-- The map after the rename of lines 110-111. -/
def renamed {α : Type} (obj : List (String × α)) (oldKey newKey : String) (val : α) :
    List (String × α) :=
  mapDelete (mapSet obj newKey val) oldKey

/-- The bytes lines 79-150 choose to install when `b` was read. -/
def chosenBytes {ν : Type} (L : Lib ν) (oldKey newKey : String) (b : Bytes) : Bytes :=
  if (bytesTrimSpace b).length = 0 then b
  else
    match L.Unmarshal b with
    | some (.object obj) =>
      match mapGet obj oldKey with
      | some val =>
        match L.Marshal (renamed obj oldKey newKey val) with
        | some newBytes => newBytes
        | none => b
      | none => b
    | _ => b

/-- The calls of the codec that lines 94 and 116 make when `b` was read. -/
def codecEvents {ν : Type} (L : Lib ν) (oldKey : String) (b : Bytes) : List Event :=
  if (bytesTrimSpace b).length = 0 then []
  else
    match L.Unmarshal b with
    | some (.object obj) =>
      match mapGet obj oldKey with
      | some _ => [.unmarshal, .marshal]
      | none => [.unmarshal]
    | _ => [.unmarshal]

/-! ## Concrete inputs -/

/-- A config that renames `user_id` to `userId`. -/
def sampleConfig : Config :=
  { OldKey := "user_id", NewKey := " userId " }

/-- A chunked `POST` with the given content type and body, readable to its end. -/
def sampleRequest (contentType : String) (body : String) : Request :=
  { Method := "POST"
    URL := "/api"
    Header := some [("Content-Type", [contentType]), ("X-Trace", ["t1"])]
    Body := some { data := asciiBytes body, failAt := none, closed := 0 }
    ContentLength := -1
    TransferEncoding := ["chunked"] }

/-- The request `sampleRequest` with a `Content-Encoding` header. -/
def encodedRequest (contentType encoding body : String) : Request :=
  { sampleRequest contentType body with
    Header := some [("Content-Type", [contentType]), ("Content-Encoding", [encoding])] }

/-- A `GET` without a body and without a header map. -/
def bodylessRequest : Request :=
  { Method := "GET"
    URL := "/health"
    Header := none
    Body := none
    ContentLength := 0
    TransferEncoding := [] }

/-- The request `sampleRequest` with a body whose read fails after `n` bytes. -/
def brokenRequest (contentType : String) (body : String) (n : Nat) : Request :=
  { sampleRequest contentType body with
    Body := some { data := asciiBytes body, failAt := some n, closed := 0 } }

/-- The document `{"user_id":42,"name":"a"}`. -/
def renameBody : String := "\x7b\"user_id\":42,\"name\":\"a\"\x7d"

/-- The document `{"name":"a","userId":42}`. -/
def renamedBody : String := "\x7b\"name\":\"a\",\"userId\":42\x7d"

/-- The document `{"user_id":42,"userId":7,"name":"a"}`. -/
def collisionBody : String := "\x7b\"user_id\":42,\"userId\":7,\"name\":\"a\"\x7d"

/-- The document ` { "userId" : 42 , "b" : 1 } `, with white space around every token. -/
def spacedBody : String := " \x7b \"userId\" : 42 , \"b\" : 1 \x7d "

/-- The document `{"user_id":42}`. -/
def smallBody : String := "\x7b\"user_id\":42\x7d"

/-- The document `{"id":42}`. -/
def idBody : String := "\x7b\"id\":42\x7d"

/-- The document `{"A":1," a ":2}`: keys that differ from `a` by letter case or by surrounding
white space. -/
def variantBody : String := "\x7b\"A\":1,\" a \":2\x7d"

/-- The document `{"a":1}`. -/
def exactBody : String := "\x7b\"a\":1\x7d"

/-- The document `{"b":1}`. -/
def exactRenamedBody : String := "\x7b\"b\":1\x7d"

/-- A body of white space: two spaces, a line feed, a tab, a space. -/
def blankBody : String := "  \n\t "

/-! ## The paths of the handler -/

theorem header_of_jsonContentType {ν : Type} (L : Lib ν) (req : Request)
    (h : JSONContentType L req) : ∃ hm, req.Header = some hm := by
  cases hh : req.Header with
  | some hm => exact ⟨hm, rfl⟩
  | none =>
    exfalso
    unfold JSONContentType at h
    rw [hh] at h
    simp [Header.Get, Lib.ToLower, Contains, containsChars] at h

theorem installBody_some (req : Request) (hm : List (String × List String)) (b : Bytes)
    (hh : req.Header = some hm) :
    installBody req b = (some (withBody req hm b),
      [.setBody b, .setContentLength (Int.ofNat b.length),
        .headerSet "Content-Length" (FormatInt (Int.ofNat b.length)), .clearTransferEncoding]) := by
  simp [installBody, Header.Set, hh, withBody]

theorem deliver_installBody (pre : List Event) (req : Request) (s : Option Stream)
    (hm : List (String × List String)) (b : Bytes) (hh : req.Header = some hm) :
    deliver pre (installBody { req with Body := s } b) =
      ⟨pre ++ [.setBody b, .setContentLength (Int.ofNat b.length),
        .headerSet "Content-Length" (FormatInt (Int.ofNat b.length)), .clearTransferEncoding,
        .next (some (withBody req hm b))], false⟩ := by
  rw [installBody_some { req with Body := s } hm b hh]
  simp [deliver, withBody]

theorem ServeHTTP_nilBody {ν : Type} (L : Lib ν) (m : RewriteRequestBody) (req : Request)
    (hb : req.Body = none) : ServeHTTP L m (some req) = ⟨[.next (some req)], false⟩ := by
  simp [ServeHTTP, hb]

theorem ServeHTTP_notJSON {ν : Type} (L : Lib ν) (m : RewriteRequestBody) (req : Request)
    (s : Stream) (hb : req.Body = some s) (h : ¬ JSONContentType L req) :
    ServeHTTP L m (some req) = ⟨[.headerGet "Content-Type", .next (some req)], false⟩ := by
  unfold JSONContentType at h
  simp [ServeHTTP, hb, h]

theorem ServeHTTP_encoded {ν : Type} (L : Lib ν) (m : RewriteRequestBody) (req : Request)
    (s : Stream) (hb : req.Body = some s) (hct : JSONContentType L req)
    (h : ¬ IdentityEncoding L req) :
    ServeHTTP L m (some req) =
      ⟨[.headerGet "Content-Type", .headerGet "Content-Encoding", .next (some req)],
        false⟩ := by
  unfold JSONContentType at hct
  unfold IdentityEncoding at h
  have h2 : req.Header.Get "Content-Encoding" ≠ "" ∧
      L.ToLower (req.Header.Get "Content-Encoding") ≠ "identity" := by
    constructor
    · intro h3; exact h (Or.inl h3)
    · intro h3; exact h (Or.inr h3)
  simp only [ServeHTTP, hb, hct, Bool.not_true]
  rw [if_neg (by simp), if_pos h2]

theorem ServeHTTP_invalidConfig {ν : Type} (L : Lib ν) (m : RewriteRequestBody) (cfg : Config)
    (req : Request) (s : Stream) (hc : m.config = some cfg) (hb : req.Body = some s)
    (hct : JSONContentType L req) (henc : IdentityEncoding L req) (h : ¬ ValidConfig cfg) :
    ServeHTTP L m (some req) =
      ⟨[.headerGet "Content-Type", .headerGet "Content-Encoding", .configRead,
        .next (some req)], false⟩ := by
  unfold JSONContentType at hct
  unfold IdentityEncoding at henc
  have henc2 : ¬ (req.Header.Get "Content-Encoding" ≠ "" ∧
      L.ToLower (req.Header.Get "Content-Encoding") ≠ "identity") := by
    rintro ⟨h1, h2⟩
    rcases henc with h3 | h3
    · exact h1 h3
    · exact h2 h3
  have hcfg : TrimSpace cfg.OldKey = "" ∨ TrimSpace cfg.NewKey = "" ∨
      TrimSpace cfg.OldKey = TrimSpace cfg.NewKey := by
    unfold ValidConfig at h
    by_contra hn
    push_neg at hn
    exact h hn
  simp only [ServeHTTP, hb, hct, hc, Bool.not_true]
  rw [if_neg (by simp), if_neg henc2, if_pos hcfg]

theorem ServeHTTP_readError {ν : Type} (L : Lib ν) (m : RewriteRequestBody) (cfg : Config)
    (req : Request) (s : Stream) (n : Nat) (hc : m.config = some cfg) (hb : req.Body = some s)
    (hf : s.failAt = some n) (he : Eligible L cfg req) :
    ServeHTTP L m (some req) =
      ⟨[.headerGet "Content-Type", .headerGet "Content-Encoding", .configRead, .readAll,
        .next (some { req with
          Body := some { s with data := s.data.drop n, failAt := some 0 } })], false⟩ := by
  obtain ⟨hct, henc, hv1, hv2, hv3⟩ := he
  unfold JSONContentType at hct
  unfold IdentityEncoding at henc
  have henc2 : ¬ (req.Header.Get "Content-Encoding" ≠ "" ∧
      L.ToLower (req.Header.Get "Content-Encoding") ≠ "identity") := by
    rintro ⟨h1, h2⟩
    rcases henc with h3 | h3
    · exact h1 h3
    · exact h2 h3
  have hcfg : ¬ (TrimSpace cfg.OldKey = "" ∨ TrimSpace cfg.NewKey = "" ∨
      TrimSpace cfg.OldKey = TrimSpace cfg.NewKey) := by
    rintro (h | h | h)
    · exact hv1 h
    · exact hv2 h
    · exact hv3 h
  have hread : ReadAll s =
      (s.data.take n, true, { s with data := s.data.drop n, failAt := some 0 }) := by
    simp [ReadAll, hf]
  simp only [ServeHTTP, hb, hct, hc, hread, Bool.not_true]
  rw [if_neg (by simp), if_neg henc2, if_neg hcfg]

theorem ServeHTTP_eligible_trace {ν : Type} (L : Lib ν) (m : RewriteRequestBody)
    (cfg : Config) (req : Request) (s : Stream) (hm : List (String × List String))
    (hc : m.config = some cfg) (hb : req.Body = some s) (hr : s.failAt = none)
    (hh : req.Header = some hm) (he : Eligible L cfg req) :
    ServeHTTP L m (some req) =
      ⟨[.headerGet "Content-Type", .headerGet "Content-Encoding", .configRead, .readAll,
          .close ({ s with data := [] } : Stream).Close] ++
        codecEvents L (TrimSpace cfg.OldKey) s.data ++
        [.setBody (chosenBytes L (TrimSpace cfg.OldKey) (TrimSpace cfg.NewKey) s.data),
          .setContentLength (Int.ofNat
            (chosenBytes L (TrimSpace cfg.OldKey) (TrimSpace cfg.NewKey) s.data).length),
          .headerSet "Content-Length" (FormatInt (Int.ofNat
            (chosenBytes L (TrimSpace cfg.OldKey) (TrimSpace cfg.NewKey) s.data).length)),
          .clearTransferEncoding,
          .next (some (withBody req hm
            (chosenBytes L (TrimSpace cfg.OldKey) (TrimSpace cfg.NewKey) s.data)))], false⟩ := by
  obtain ⟨hct, henc, hv1, hv2, hv3⟩ := he
  unfold JSONContentType at hct
  unfold IdentityEncoding at henc
  have henc2 : ¬ (req.Header.Get "Content-Encoding" ≠ "" ∧
      L.ToLower (req.Header.Get "Content-Encoding") ≠ "identity") := by
    rintro ⟨h1, h2⟩
    rcases henc with h | h
    · exact h1 h
    · exact h2 h
  have hcfg : ¬ (TrimSpace cfg.OldKey = "" ∨ TrimSpace cfg.NewKey = "" ∨
      TrimSpace cfg.OldKey = TrimSpace cfg.NewKey) := by
    rintro (h | h | h)
    · exact hv1 h
    · exact hv2 h
    · exact hv3 h
  have hread : ReadAll s = (s.data, false, { s with data := [] }) := by
    simp [ReadAll, hr]
  simp only [ServeHTTP, hb, hct, hc, henc2, hcfg, hread, if_false, Bool.not_true]
  unfold chosenBytes renamed codecEvents
  by_cases hblank : (bytesTrimSpace s.data).length = 0
  · simp only [hblank, if_true]
    simp [deliver_installBody _ req _ hm _ hh]
  · simp only [hblank, if_false]
    cases hu : L.Unmarshal s.data with
    | none =>
      simp [deliver_installBody _ req _ hm _ hh]
    | some v =>
      cases v with
      | object obj =>
        simp only []
        cases hg : mapGet obj (TrimSpace cfg.OldKey) with
        | none =>
          simp [deliver_installBody _ req _ hm _ hh]
        | some val =>
          simp only []
          cases hmar : L.Marshal (mapDelete (mapSet obj (TrimSpace cfg.NewKey) val)
              (TrimSpace cfg.OldKey)) with
          | none =>
            simp [deliver_installBody _ req _ hm _ hh]
          | some nb =>
            simp [deliver_installBody _ req _ hm _ hh]
      | null =>
        simp [deliver_installBody _ req _ hm _ hh]
      | bool b =>
        simp [deliver_installBody _ req _ hm _ hh]
      | number n =>
        simp [deliver_installBody _ req _ hm _ hh]
      | string str =>
        simp [deliver_installBody _ req _ hm _ hh]
      | array xs =>
        simp [deliver_installBody _ req _ hm _ hh]

theorem codecEvents_mem {ν : Type} (L : Lib ν) (oldKey : String) (b : Bytes) (e : Event)
    (he : e ∈ codecEvents L oldKey b) : e = .unmarshal ∨ e = .marshal := by
  unfold codecEvents at he
  split at he
  · simp at he
  · split at he
    · split at he
      · simpa using he
      · simp at he
        exact Or.inl he
    · simp at he
      exact Or.inl he

theorem ServeHTTP_eligible {ν : Type} (L : Lib ν) (m : RewriteRequestBody) (cfg : Config)
    (req : Request) (s : Stream) (hm : List (String × List String))
    (hc : m.config = some cfg) (hb : req.Body = some s) (hr : s.failAt = none)
    (hh : req.Header = some hm) (he : Eligible L cfg req) :
    ∃ pre, ServeHTTP L m (some req) =
        ⟨pre ++ [.setBody (chosenBytes L (TrimSpace cfg.OldKey) (TrimSpace cfg.NewKey) s.data),
          .setContentLength (Int.ofNat
            (chosenBytes L (TrimSpace cfg.OldKey) (TrimSpace cfg.NewKey) s.data).length),
          .headerSet "Content-Length" (FormatInt (Int.ofNat
            (chosenBytes L (TrimSpace cfg.OldKey) (TrimSpace cfg.NewKey) s.data).length)),
          .clearTransferEncoding,
          .next (some (withBody req hm
            (chosenBytes L (TrimSpace cfg.OldKey) (TrimSpace cfg.NewKey) s.data)))], false⟩
      ∧ ∀ e ∈ pre, e.isNext = false ∧ e.isWrite = false := by
  refine ⟨[.headerGet "Content-Type", .headerGet "Content-Encoding", .configRead, .readAll,
      .close ({ s with data := [] } : Stream).Close] ++
    codecEvents L (TrimSpace cfg.OldKey) s.data,
    ServeHTTP_eligible_trace L m cfg req s hm hc hb hr hh he, ?_⟩
  intro e hmem
  rcases List.mem_append.mp hmem with h | h
  · simp at h
    rcases h with h | h | h | h | h <;> subst h <;> exact ⟨rfl, rfl⟩
  · rcases codecEvents_mem L _ _ e h with h2 | h2 <;> subst h2 <;> exact ⟨rfl, rfl⟩

/-! ## Go maps: lookups after the two writes -/

theorem mapGet_mapDelete {α : Type} (m : List (String × α)) (k k2 : String) :
    mapGet (mapDelete m k) k2 = if k = k2 then none else mapGet m k2 := by
  induction m with
  | nil => simp [mapDelete, mapGet]
  | cons p m ih =>
    obtain ⟨k1, v⟩ := p
    by_cases h1 : k1 = k
    · subst h1
      simp only [mapDelete, if_true, ih, mapGet]
      by_cases h2 : k1 = k2
      · simp [h2]
      · simp [h2]
    · simp only [mapDelete, h1, if_false, mapGet, ih]
      by_cases h2 : k1 = k2
      · subst h2
        have h3 : ¬ k = k1 := fun h => h1 h.symm
        simp [h3]
      · simp [h2]

theorem mapGet_mapSet {α : Type} (m : List (String × α)) (k k2 : String) (v : α) :
    mapGet (mapSet m k v) k2 = if k = k2 then some v else mapGet m k2 := by
  by_cases h : k = k2
  · simp [mapSet, mapGet, h]
  · simp [mapSet, mapGet, h, mapGet_mapDelete]

theorem mapGet_renamed {α : Type} (obj : List (String × α)) (oldKey newKey k : String)
    (val : α) :
    mapGet (renamed obj oldKey newKey val) k =
      if oldKey = k then none else if newKey = k then some val else mapGet obj k := by
  simp [renamed, mapGet_mapDelete, mapGet_mapSet]

theorem mem_keys_iff {α : Type} (m : List (String × α)) (k : String) :
    k ∈ m.map Prod.fst ↔ mapGet m k ≠ none := by
  induction m with
  | nil => simp [mapGet]
  | cons p m ih =>
    obtain ⟨k1, v⟩ := p
    by_cases h : k1 = k
    · simp [mapGet, h]
    · have h2 : ¬ k = k1 := fun h3 => h h3.symm
      simp [mapGet, h, h2, ih]

theorem mapLen_renamed {α : Type} (obj obj2 : List (String × α)) (oldKey newKey : String)
    (val w : α) (hold : mapGet obj oldKey = some val) (hnew : mapGet obj newKey = some w)
    (heq : ∀ k, mapGet obj2 k = mapGet (renamed obj oldKey newKey val) k) :
    mapLen obj2 + 1 = mapLen obj := by
  unfold mapLen
  have hmem : oldKey ∈ (obj.map Prod.fst).toFinset := by
    rw [List.mem_toFinset, mem_keys_iff, hold]
    simp
  have hset : (obj2.map Prod.fst).toFinset = (obj.map Prod.fst).toFinset.erase oldKey := by
    ext k
    rw [Finset.mem_erase, List.mem_toFinset, List.mem_toFinset, mem_keys_iff, mem_keys_iff,
      heq k, mapGet_renamed]
    by_cases h1 : oldKey = k
    · subst h1
      simp
    · have h2 : k ≠ oldKey := fun h => h1 h.symm
      by_cases h3 : newKey = k
      · subst h3
        simp [h1, h2, hnew]
      · simp [h1, h2, h3]
  rw [hset, Finset.card_erase_of_mem hmem]
  have hpos : 0 < (obj.map Prod.fst).toFinset.card := Finset.card_pos.mpr ⟨oldKey, hmem⟩
  omega

theorem Header.Get_mapSet_ne (hm : List (String × List String)) (k k2 : String)
    (v : List String) (h : k ≠ k2) :
    Header.Get (some (mapSet hm k v)) k2 = Header.Get (some hm) k2 := by
  simp [Header.Get, mapGet_mapSet, h]

theorem Header.Get_mapSet_self (hm : List (String × List String)) (k v : String) :
    Header.Get (some (mapSet hm k [v])) k = v := by
  simp [Header.Get, mapGet_mapSet]

theorem delegated_append_next (pre : List Event) (r : Option Request) (p : Bool)
    (hpre : ∀ e ∈ pre, e.isNext = false) :
    (Outcome.mk (pre ++ [.next r]) p).delegated = [r] := by
  unfold Outcome.delegated
  rw [List.filterMap_append]
  have h0 : pre.filterMap (fun e => match e with
      | .next r => some r
      | _ => none) = [] := by
    rw [List.filterMap_eq_nil_iff]
    intro e he
    have h1 := hpre e he
    cases e <;> simp_all [Event.isNext]
  rw [h0]
  rfl

/-! ## The run as a whole -/

theorem ServeHTTP_cases {ν : Type} (L : Lib ν) (m : RewriteRequestBody) (req : Option Request) :
    (∃ pre, ServeHTTP L m req = ⟨pre ++ [.next req], false⟩ ∧
        ∀ e ∈ pre, e = .headerGet "Content-Type" ∨ e = .headerGet "Content-Encoding"
          ∨ e = .configRead)
    ∨ (∃ r0 s n, req = some r0 ∧ r0.Body = some s ∧ s.failAt = some n ∧
        ServeHTTP L m req =
          ⟨[.headerGet "Content-Type", .headerGet "Content-Encoding", .configRead, .readAll,
            .next (some { r0 with
              Body := some { s with data := s.data.drop n, failAt := some 0 } })], false⟩)
    ∨ (m.config = none ∧ ServeHTTP L m req =
        ⟨[.headerGet "Content-Type", .headerGet "Content-Encoding"], true⟩)
    ∨ (∃ pre r0 s cfg hm, req = some r0 ∧ r0.Body = some s ∧ s.failAt = none ∧
        m.config = some cfg ∧ r0.Header = some hm ∧ Eligible L cfg r0 ∧
        ServeHTTP L m req =
          ⟨pre ++ [.setBody (chosenBytes L (TrimSpace cfg.OldKey) (TrimSpace cfg.NewKey) s.data),
            .setContentLength (Int.ofNat
              (chosenBytes L (TrimSpace cfg.OldKey) (TrimSpace cfg.NewKey) s.data).length),
            .headerSet "Content-Length" (FormatInt (Int.ofNat
              (chosenBytes L (TrimSpace cfg.OldKey) (TrimSpace cfg.NewKey) s.data).length)),
            .clearTransferEncoding,
            .next (some (withBody r0 hm
              (chosenBytes L (TrimSpace cfg.OldKey) (TrimSpace cfg.NewKey) s.data)))], false⟩
        ∧ ∀ e ∈ pre, e.isNext = false ∧ e.isWrite = false) := by
  cases req with
  | none => exact Or.inl ⟨[], rfl, by simp⟩
  | some r0 =>
    cases hb : r0.Body with
    | none => exact Or.inl ⟨[], ServeHTTP_nilBody L m r0 hb, by simp⟩
    | some s =>
      by_cases hct : JSONContentType L r0
      swap
      · exact Or.inl ⟨[.headerGet "Content-Type"], ServeHTTP_notJSON L m r0 s hb hct, by simp⟩
      by_cases henc : IdentityEncoding L r0
      swap
      · exact Or.inl ⟨[.headerGet "Content-Type", .headerGet "Content-Encoding"],
          ServeHTTP_encoded L m r0 s hb hct henc, by simp⟩
      cases hc : m.config with
      | none =>
        refine Or.inr (Or.inr (Or.inl ⟨rfl, ?_⟩))
        unfold JSONContentType at hct
        unfold IdentityEncoding at henc
        have henc2 : ¬ (r0.Header.Get "Content-Encoding" ≠ "" ∧
            L.ToLower (r0.Header.Get "Content-Encoding") ≠ "identity") := by
          rintro ⟨h1, h2⟩
          rcases henc with h3 | h3
          · exact h1 h3
          · exact h2 h3
        simp only [ServeHTTP, hb, hct, hc, Bool.not_true]
        rw [if_neg (by simp), if_neg henc2]
      | some cfg =>
        by_cases hv : ValidConfig cfg
        swap
        · exact Or.inl ⟨[.headerGet "Content-Type", .headerGet "Content-Encoding", .configRead],
            ServeHTTP_invalidConfig L m cfg r0 s hc hb hct henc hv, by simp⟩
        cases hf : s.failAt with
        | some n =>
          exact Or.inr (Or.inl ⟨r0, s, n, rfl, hb, hf,
            ServeHTTP_readError L m cfg r0 s n hc hb hf ⟨hct, henc, hv⟩⟩)
        | none =>
          obtain ⟨hm, hh⟩ := header_of_jsonContentType L r0 hct
          obtain ⟨pre, h1, h2⟩ :=
            ServeHTTP_eligible L m cfg r0 s hm hc hb hf hh ⟨hct, henc, hv⟩
          exact Or.inr (Or.inr (Or.inr
            ⟨pre, r0, s, cfg, hm, rfl, hb, hf, rfl, hh, ⟨hct, henc, hv⟩, h1, h2⟩))

theorem forwarded_eligible {ν : Type} (L : Lib ν) (name : String) (cfg : Config) (req : Request)
    (s : Stream) (hb : req.Body = some s) (hr : s.failAt = none) (he : Eligible L cfg req) :
    ∃ hm, req.Header = some hm ∧
      (ServeHTTP L ⟨name, some cfg⟩ (some req)).delegated =
        [some (withBody req hm
          (chosenBytes L (TrimSpace cfg.OldKey) (TrimSpace cfg.NewKey) s.data))] ∧
      (ServeHTTP L ⟨name, some cfg⟩ (some req)).panicked = false := by
  obtain ⟨hm, hh⟩ := header_of_jsonContentType L req he.1
  obtain ⟨pre, h1, h2⟩ := ServeHTTP_eligible L ⟨name, some cfg⟩ cfg req s hm rfl hb hr hh he
  refine ⟨hm, hh, ?_, ?_⟩
  · rw [h1]
    have := delegated_append_next (pre ++ [.setBody (chosenBytes L (TrimSpace cfg.OldKey)
        (TrimSpace cfg.NewKey) s.data),
      .setContentLength (Int.ofNat
        (chosenBytes L (TrimSpace cfg.OldKey) (TrimSpace cfg.NewKey) s.data).length),
      .headerSet "Content-Length" (FormatInt (Int.ofNat
        (chosenBytes L (TrimSpace cfg.OldKey) (TrimSpace cfg.NewKey) s.data).length)),
      .clearTransferEncoding]) (some (withBody req hm
        (chosenBytes L (TrimSpace cfg.OldKey) (TrimSpace cfg.NewKey) s.data))) false (by
          intro e he2
          rcases List.mem_append.mp he2 with h | h
          · exact (h2 e h).1
          · simp at h
            rcases h with h | h | h | h <;> subst h <;> rfl)
    simpa using this
  · rw [h1]

theorem withBody_bodyBytes (req : Request) (hm : List (String × List String)) (b : Bytes) :
    (withBody req hm b).bodyBytes = b := rfl

theorem chosenBytes_of_absent {ν : Type} (L : Lib ν) (oldKey newKey : String) (b : Bytes)
    (obj : List (String × Value ν)) (hu : L.Unmarshal b = some (.object obj))
    (hg : mapGet obj oldKey = none) : chosenBytes L oldKey newKey b = b := by
  unfold chosenBytes
  split
  · rfl
  · simp [hu, hg]

theorem chosenBytes_of_nonObject {ν : Type} (L : Lib ν) (oldKey newKey : String) (b : Bytes)
    (h : ∀ obj, L.Unmarshal b ≠ some (.object obj)) : chosenBytes L oldKey newKey b = b := by
  unfold chosenBytes
  split
  · rfl
  · split
    · rename_i obj hu
      exact absurd hu (h obj)
    · rfl

theorem chosenBytes_of_present {ν : Type} (L : Lib ν) (oldKey newKey : String) (b nb : Bytes)
    (obj : List (String × Value ν)) (val : Value ν) (hnb : (bytesTrimSpace b).length ≠ 0)
    (hu : L.Unmarshal b = some (.object obj)) (hg : mapGet obj oldKey = some val)
    (hmar : L.Marshal (renamed obj oldKey newKey val) = some nb) :
    chosenBytes L oldKey newKey b = nb := by
  unfold chosenBytes
  simp [hnb, hu, hg, hmar]

theorem chosenBytes_of_blank {ν : Type} (L : Lib ν) (oldKey newKey : String) (b : Bytes)
    (h : (bytesTrimSpace b).length = 0) : chosenBytes L oldKey newKey b = b := by
  unfold chosenBytes
  simp [h]

theorem chosenBytes_of_encodeError {ν : Type} (L : Lib ν) (oldKey newKey : String) (b : Bytes)
    (obj : List (String × Value ν)) (val : Value ν)
    (hu : L.Unmarshal b = some (.object obj)) (hg : mapGet obj oldKey = some val)
    (hmar : L.Marshal (renamed obj oldKey newKey val) = none) :
    chosenBytes L oldKey newKey b = b := by
  unfold chosenBytes
  split
  · rfl
  · simp [hu, hg, hmar]

theorem chosenBytes_eq_or {ν : Type} (L : Lib ν) (oldKey newKey : String) (b : Bytes) :
    chosenBytes L oldKey newKey b = b ∨
      ∃ obj val nb, L.Unmarshal b = some (.object obj) ∧ mapGet obj oldKey = some val ∧
        L.Marshal (renamed obj oldKey newKey val) = some nb ∧
        chosenBytes L oldKey newKey b = nb := by
  by_cases hblank : (bytesTrimSpace b).length = 0
  · exact Or.inl (chosenBytes_of_blank L oldKey newKey b hblank)
  by_cases hobj : ∃ obj, L.Unmarshal b = some (.object obj)
  swap
  · refine Or.inl (chosenBytes_of_nonObject L oldKey newKey b ?_)
    intro obj h
    exact hobj ⟨obj, h⟩
  obtain ⟨obj, hu⟩ := hobj
  cases hg : mapGet obj oldKey with
  | none => exact Or.inl (chosenBytes_of_absent L oldKey newKey b obj hu hg)
  | some val =>
    cases hmar : L.Marshal (renamed obj oldKey newKey val) with
    | none => exact Or.inl (chosenBytes_of_encodeError L oldKey newKey b obj val hu hg hmar)
    | some nb =>
      exact Or.inr ⟨obj, val, nb, hu, hg, hmar,
        chosenBytes_of_present L oldKey newKey b nb obj val hblank hu hg hmar⟩

theorem chosenBytes_idem {ν : Type} (L : Lib ν) (oldKey newKey : String) (b : Bytes)
    (hrt : ∀ obj val nb, L.Unmarshal b = some (.object obj) → mapGet obj oldKey = some val →
      L.Marshal (renamed obj oldKey newKey val) = some nb →
      ∃ obj2, L.Unmarshal nb = some (.object obj2) ∧
        ∀ k, mapGet obj2 k = mapGet (renamed obj oldKey newKey val) k) :
    chosenBytes L oldKey newKey (chosenBytes L oldKey newKey b) =
      chosenBytes L oldKey newKey b := by
  rcases chosenBytes_eq_or L oldKey newKey b with h | ⟨obj, val, nb, hu, hg, hmar, h⟩
  · rw [h, h]
  · rw [h]
    obtain ⟨obj2, hu2, heq⟩ := hrt obj val nb hu hg hmar
    apply chosenBytes_of_absent L oldKey newKey nb obj2 hu2
    rw [heq, mapGet_renamed]
    simp

theorem mapDelete_mapDelete {α : Type} (m : List (String × α)) (k : String) :
    mapDelete (mapDelete m k) k = mapDelete m k := by
  induction m with
  | nil => rfl
  | cons p m ih =>
    obtain ⟨k1, v⟩ := p
    by_cases h : k1 = k
    · simp [mapDelete, h, ih]
    · simp [mapDelete, h, ih]

theorem mapSet_mapSet {α : Type} (m : List (String × α)) (k : String) (v : α) :
    mapSet (mapSet m k v) k v = mapSet m k v := by
  simp [mapSet, mapDelete, mapDelete_mapDelete]

theorem eligible_withBody {ν : Type} (L : Lib ν) (cfg : Config) (req : Request)
    (hm : List (String × List String)) (b : Bytes) (hh : req.Header = some hm)
    (he : Eligible L cfg req) : Eligible L cfg (withBody req hm b) := by
  obtain ⟨hct, henc, hv⟩ := he
  unfold JSONContentType at hct
  unfold IdentityEncoding at henc
  rw [hh] at hct henc
  refine ⟨?_, ?_, hv⟩
  · unfold JSONContentType
    simp only [withBody]
    rw [Header.Get_mapSet_ne hm _ _ _ (by decide)]
    exact hct
  · unfold IdentityEncoding
    simp only [withBody]
    rw [Header.Get_mapSet_ne hm _ _ _ (by decide)]
    exact henc

/-! ## White-space bodies, and further facts on the paths -/

theorem mapLen_of_two {α : Type} (m : List (String × α)) (k1 k2 : String) (hne : k1 ≠ k2)
    (h : ∀ k, mapGet m k ≠ none ↔ k = k1 ∨ k = k2) : mapLen m = 2 := by
  unfold mapLen
  have hset : (m.map Prod.fst).toFinset = {k1, k2} := by
    ext k
    rw [List.mem_toFinset, mem_keys_iff, h k]
    simp
  rw [hset, Finset.card_pair hne]

theorem spaceWidth_encoding (e : Bytes) (he : e ∈ spaceEncodings) (rest : Bytes) :
    spaceWidth (e ++ rest) = e.length ∧ 0 < e.length := by
  simp only [spaceEncodings, List.mem_cons, List.mem_singleton, List.not_mem_nil,
    or_false] at he
  rcases he with h | h | h | h | h | h | h | h | h | h | h | h | h | h | h | h | h | h | h
    | h | h | h | h | h | h <;> subst h <;> exact ⟨rfl, by decide⟩

theorem trimLeftSpace_whiteSpaceOnly (b : Bytes) (h : WhiteSpaceOnly b) :
    ∀ fuel, b.length ≤ fuel → trimLeftSpace fuel b = [] := by
  induction h with
  | nil =>
    intro fuel _
    cases fuel with
    | zero => rfl
    | succ f => simp [trimLeftSpace, spaceWidth]
  | cons e rest he _ ih =>
    intro fuel hfuel
    obtain ⟨hw, hpos⟩ := spaceWidth_encoding e he rest
    cases fuel with
    | zero =>
      rw [List.length_append] at hfuel
      omega
    | succ f =>
      have hne : ¬ e.length = 0 := by omega
      simp only [trimLeftSpace, hw, hne, if_false, List.drop_left]
      apply ih
      rw [List.length_append] at hfuel
      omega

theorem bytesTrimSpace_whiteSpaceOnly (b : Bytes) (h : WhiteSpaceOnly b) :
    bytesTrimSpace b = [] := by
  unfold bytesTrimSpace
  rw [trimLeftSpace_whiteSpaceOnly b h b.length (Nat.le_refl _)]
  cases b.length with
  | zero => rfl
  | succ n => rfl

theorem codecEvents_of_blank {ν : Type} (L : Lib ν) (oldKey : String) (b : Bytes)
    (h : (bytesTrimSpace b).length = 0) : codecEvents L oldKey b = [] := by
  unfold codecEvents
  simp [h]

theorem setBody_mem_eligible {ν : Type} (L : Lib ν) (m : RewriteRequestBody) (cfg : Config)
    (req : Request) (s : Stream) (hm : List (String × List String))
    (hc : m.config = some cfg) (hb : req.Body = some s) (hr : s.failAt = none)
    (hh : req.Header = some hm) (he : Eligible L cfg req) (b : Bytes)
    (h : Event.setBody b ∈ (ServeHTTP L m (some req)).trace) :
    b = chosenBytes L (TrimSpace cfg.OldKey) (TrimSpace cfg.NewKey) s.data := by
  obtain ⟨pre, hrun, hpre⟩ := ServeHTTP_eligible L m cfg req s hm hc hb hr hh he
  rw [hrun] at h
  simp only [List.mem_append, List.mem_cons, List.mem_singleton] at h
  rcases h with h | h | h | h | h | h | h
  · have := (hpre _ h).2
    simp [Event.isWrite] at this
  · injection h
  · cases h
  · cases h
  · cases h
  · cases h
  · cases h

theorem ServeHTTP_gate {ν : Type} (L : Lib ν) (name : String) (cfg : Config) (req : Request)
    (h : req.Body = none ∨ ¬ Eligible L cfg req) :
    ∃ pre, ServeHTTP L ⟨name, some cfg⟩ (some req) =
        ⟨pre ++ [.next (some req)], false⟩ ∧
      ∀ e ∈ pre, e = .headerGet "Content-Type" ∨ e = .headerGet "Content-Encoding"
        ∨ e = .configRead := by
  cases hb : req.Body with
  | none => exact ⟨[], ServeHTTP_nilBody L _ req hb, by simp⟩
  | some s =>
    have hne : ¬ Eligible L cfg req := by
      rcases h with h | h
      · rw [hb] at h
        cases h
      · exact h
    by_cases hct : JSONContentType L req
    swap
    · exact ⟨[.headerGet "Content-Type"], ServeHTTP_notJSON L _ req s hb hct, by simp⟩
    by_cases henc : IdentityEncoding L req
    swap
    · exact ⟨[.headerGet "Content-Type", .headerGet "Content-Encoding"],
        ServeHTTP_encoded L _ req s hb hct henc, by simp⟩
    have hv : ¬ ValidConfig cfg := fun hv => hne ⟨hct, henc, hv⟩
    exact ⟨[.headerGet "Content-Type", .headerGet "Content-Encoding", .configRead],
      ServeHTTP_invalidConfig L ⟨name, some cfg⟩ cfg req s rfl hb hct henc hv, by simp⟩

theorem header_nonempty_of_jsonContentType {ν : Type} (L : Lib ν) (req : Request)
    (hm : List (String × List String)) (hh : req.Header = some hm)
    (h : JSONContentType L req) : hm ≠ [] := by
  intro hnil
  subst hnil
  unfold JSONContentType at h
  rw [hh] at h
  simp [Header.Get, mapGet, Lib.ToLower, Contains, containsChars] at h

/-! ## The claims -/

/-- C1. Rename postcondition: for an eligible request whose body is read to its end and decodes
to an object holding the trimmed `OldKey` with value `V`, the body handed to the next handler
is the encoding of the renamed map; it decodes to an object in which the trimmed `NewKey` maps
to `V`, the trimmed `OldKey` is absent and every other key has the value it had.  The
hypotheses `hnb`, `hmar`, `hrt` and `heq` are the contract of `encoding/json` at this document:
a blank input does not decode, the renamed map encodes, and decoding inverts encoding. -/
theorem C1_rename_postcondition {ν : Type} (L : Lib ν) (name : String) (cfg : Config)
    (req : Request) (s : Stream) (obj obj2 : List (String × Value ν)) (V : Value ν)
    (newBytes : Bytes)
    (hb : req.Body = some s) (hr : s.failAt = none) (he : Eligible L cfg req)
    (hu : L.Unmarshal s.data = some (.object obj))
    (hV : mapGet obj (TrimSpace cfg.OldKey) = some V)
    (hnb : (bytesTrimSpace s.data).length ≠ 0)
    (hmar : L.Marshal (renamed obj (TrimSpace cfg.OldKey) (TrimSpace cfg.NewKey) V)
      = some newBytes)
    (hrt : L.Unmarshal newBytes = some (.object obj2))
    (heq : ∀ k, mapGet obj2 k =
      mapGet (renamed obj (TrimSpace cfg.OldKey) (TrimSpace cfg.NewKey) V) k) :
    ∃ r, (ServeHTTP L ⟨name, some cfg⟩ (some req)).delegated = [some r] ∧
      r.bodyBytes = newBytes ∧
      L.Unmarshal r.bodyBytes = some (.object obj2) ∧
      mapGet obj2 (TrimSpace cfg.NewKey) = some V ∧
      mapGet obj2 (TrimSpace cfg.OldKey) = none ∧
      ∀ k, k ≠ TrimSpace cfg.OldKey → k ≠ TrimSpace cfg.NewKey →
        mapGet obj2 k = mapGet obj k := by
  obtain ⟨hm, _, h1, _⟩ := forwarded_eligible L name cfg req s hb hr he
  rw [chosenBytes_of_present L _ _ s.data newBytes obj V hnb hu hV hmar] at h1
  refine ⟨_, h1, rfl, ?_, ?_, ?_, ?_⟩
  · rw [withBody_bodyBytes]
    exact hrt
  · rw [heq, mapGet_renamed]
    simp [he.2.2.2.2]
  · rw [heq, mapGet_renamed]
    simp
  · intro k hk1 hk2
    rw [heq, mapGet_renamed]
    have h3 : ¬ TrimSpace cfg.OldKey = k := fun h => hk1 h.symm
    have h4 : ¬ TrimSpace cfg.NewKey = k := fun h => hk2 h.symm
    simp [h3, h4]

/-- The rename postcondition on `renameBody`, sent as `Application/JSON; charset=utf-8`: the
next handler reads `renamedBody`. -/
theorem C1_rename_postcondition_witness :
    ∃ r, (ServeHTTP fragLib ⟨"rewrite", some sampleConfig⟩
        (some (sampleRequest "Application/JSON; charset=utf-8" renameBody))).delegated
          = [some r] ∧
      r.bodyBytes = asciiBytes renamedBody ∧
      fragLib.Unmarshal r.bodyBytes =
        some (.object [("userId", .number 42), ("name", .string "a")]) ∧
      mapGet [("userId", Value.number (42 : Int)), ("name", .string "a")]
        (TrimSpace sampleConfig.NewKey) = some (.number 42) ∧
      mapGet [("userId", Value.number (42 : Int)), ("name", .string "a")]
        (TrimSpace sampleConfig.OldKey) = none ∧
      ∀ k, k ≠ TrimSpace sampleConfig.OldKey → k ≠ TrimSpace sampleConfig.NewKey →
        mapGet [("userId", Value.number (42 : Int)), ("name", .string "a")] k =
          mapGet [("name", Value.string "a"), ("user_id", .number 42)] k :=
  C1_rename_postcondition fragLib "rewrite" sampleConfig
    (sampleRequest "Application/JSON; charset=utf-8" renameBody)
    { data := asciiBytes renameBody, failAt := none, closed := 0 }
    [("name", .string "a"), ("user_id", .number 42)]
    [("userId", .number 42), ("name", .string "a")] (.number 42)
    (asciiBytes renamedBody)
    rfl rfl (by decide) rfl rfl (by decide) rfl rfl (fun _ => rfl)

/-- C2. Key absent: for an eligible request whose body is read to its end and decodes to an
object without the trimmed `OldKey`, the request handed to the next handler carries a fresh
reader over exactly the bytes that were read: the body is not re-serialised. -/
theorem C2_key_absent_verbatim {ν : Type} (L : Lib ν) (name : String) (cfg : Config)
    (req : Request) (s : Stream) (obj : List (String × Value ν))
    (hb : req.Body = some s) (hr : s.failAt = none) (he : Eligible L cfg req)
    (hu : L.Unmarshal s.data = some (.object obj))
    (hg : mapGet obj (TrimSpace cfg.OldKey) = none) :
    ∃ r, (ServeHTTP L ⟨name, some cfg⟩ (some req)).delegated = [some r] ∧
      r.Body = some (NopCloser s.data) ∧ r.bodyBytes = req.bodyBytes := by
  obtain ⟨hm, _, h1, _⟩ := forwarded_eligible L name cfg req s hb hr he
  rw [chosenBytes_of_absent L _ _ s.data obj hu hg] at h1
  refine ⟨_, h1, rfl, ?_⟩
  simp [Request.bodyBytes, withBody, hb, Stream.remaining, hr, NopCloser]

/-- The document `spacedBody` has no `user_id`: it is forwarded with its white space. -/
theorem C2_key_absent_verbatim_witness :
    ∃ r, (ServeHTTP fragLib ⟨"rewrite", some sampleConfig⟩
        (some (sampleRequest "application/json" spacedBody))).delegated = [some r] ∧
      r.Body = some (NopCloser (asciiBytes spacedBody)) ∧
      r.bodyBytes = (sampleRequest "application/json" spacedBody).bodyBytes :=
  C2_key_absent_verbatim fragLib "rewrite" sampleConfig
    (sampleRequest "application/json" spacedBody)
    { data := asciiBytes spacedBody, failAt := none, closed := 0 }
    [("b", .number 1), ("userId", .number 42)] rfl rfl (by decide) rfl rfl

/-- C3. Decode failure and non-object documents: for an eligible request whose body is read to
its end and either fails to decode or decodes to a value that is not an object, the request
handed to the next handler carries a fresh reader over exactly the bytes that were read. -/
theorem C3_undecodable_or_non_object_verbatim {ν : Type} (L : Lib ν) (name : String)
    (cfg : Config) (req : Request) (s : Stream)
    (hb : req.Body = some s) (hr : s.failAt = none) (he : Eligible L cfg req)
    (hu : L.Unmarshal s.data = none ∨
      ∃ v, L.Unmarshal s.data = some v ∧ ∀ obj, v ≠ .object obj) :
    ∃ r, (ServeHTTP L ⟨name, some cfg⟩ (some req)).delegated = [some r] ∧
      r.Body = some (NopCloser s.data) ∧ r.bodyBytes = req.bodyBytes := by
  obtain ⟨hm, _, h1, _⟩ := forwarded_eligible L name cfg req s hb hr he
  have hno : ∀ obj, L.Unmarshal s.data ≠ some (.object obj) := by
    intro obj hobj
    rcases hu with h | ⟨v, h, hv⟩
    · rw [h] at hobj
      cases hobj
    · rw [h] at hobj
      injection hobj with hobj
      exact hv obj hobj
  rw [chosenBytes_of_nonObject L _ _ s.data hno] at h1
  refine ⟨_, h1, rfl, ?_⟩
  simp [Request.bodyBytes, withBody, hb, Stream.remaining, hr, NopCloser]

/-- The body `not json` does not decode: it is forwarded as it is. -/
theorem C3_undecodable_or_non_object_verbatim_witness :
    ∃ r, (ServeHTTP fragLib ⟨"rewrite", some sampleConfig⟩
        (some (sampleRequest "application/json" "not json"))).delegated = [some r] ∧
      r.Body = some (NopCloser (asciiBytes "not json")) ∧
      r.bodyBytes = (sampleRequest "application/json" "not json").bodyBytes :=
  C3_undecodable_or_non_object_verbatim fragLib "rewrite" sampleConfig
    (sampleRequest "application/json" "not json")
    { data := asciiBytes "not json", failAt := none, closed := 0 } rfl rfl (by decide)
    (Or.inl rfl)

/-- C4. Content-length consistency: whenever a run installs a replacement body `b`, the run
ends, without a panic, in the one call of the next handler, and the request of that call has a
fresh reader over `b` as its body, `ContentLength` equal to the byte count of `b`, the
`Content-Length` header equal to the decimal numeral of that count (`toString` of the natural
number), and no transfer encoding. -/
theorem C4_content_length_consistency {ν : Type} (L : Lib ν) (m : RewriteRequestBody)
    (req : Option Request) (b : Bytes) (h : Event.setBody b ∈ (ServeHTTP L m req).trace) :
    ∃ pre r, ServeHTTP L m req = ⟨pre ++ [.next (some r)], false⟩ ∧
      (∀ e ∈ pre, e.isNext = false) ∧
      r.Body = some (NopCloser b) ∧ r.bodyBytes = b ∧
      r.ContentLength = Int.ofNat b.length ∧
      r.Header.Get "Content-Length" = toString b.length ∧
      r.TransferEncoding = [] := by
  have hfmt : ∀ n : Nat, FormatInt (Int.ofNat n) = toString n := by
    intro n
    have hpos : ¬ ((n : Int) < 0) := by omega
    simp [FormatInt, hpos]
    rfl
  rcases ServeHTTP_cases L m req with hc | hc | hc | hc
  · obtain ⟨pre, h1, h2⟩ := hc
    exfalso
    rw [h1] at h
    simp only [List.mem_append, List.mem_singleton] at h
    rcases h with h | h
    · rcases h2 _ h with h3 | h3 | h3 <;> cases h3
    · cases h
  · obtain ⟨r0, s, n, _, _, _, hrun⟩ := hc
    exfalso
    rw [hrun] at h
    simp at h
  · exfalso
    rw [hc.2] at h
    simp at h
  · obtain ⟨pre, r0, s, cfg, hm, _, _, _, _, hh, _, hrun, hpre⟩ := hc
    generalize chosenBytes L (TrimSpace cfg.OldKey) (TrimSpace cfg.NewKey) s.data = c
      at hrun
    have hbc : b = c := by
      rw [hrun] at h
      simp only [List.mem_append, List.mem_cons, List.mem_singleton] at h
      rcases h with h | h | h | h | h | h | h
      · have := (hpre _ h).2
        simp [Event.isWrite] at this
      · injection h
      · cases h
      · cases h
      · cases h
      · cases h
      · cases h
    subst hbc
    refine ⟨pre ++ [.setBody b, .setContentLength (Int.ofNat b.length),
      .headerSet "Content-Length" (FormatInt (Int.ofNat b.length)),
      .clearTransferEncoding], withBody r0 hm b, ?_, ?_, rfl, rfl, rfl, ?_, rfl⟩
    · rw [hrun]
      simp
    · intro e he
      rcases List.mem_append.mp he with h3 | h3
      · exact (hpre e h3).1
      · simp at h3
        rcases h3 with h3 | h3 | h3 | h3 <;> subst h3 <;> rfl
    · rw [← hfmt]
      exact Header.Get_mapSet_self hm "Content-Length" _

/-- The run on `renameBody` installs `renamedBody`, 24 bytes long, and the request of the next
handler has `ContentLength` 24 and the `Content-Length` header `24`. -/
theorem C4_content_length_consistency_witness :
    (∃ pre r, ServeHTTP fragLib ⟨"rewrite", some sampleConfig⟩
        (some (sampleRequest "application/json" renameBody)) =
          ⟨pre ++ [.next (some r)], false⟩ ∧
      (∀ e ∈ pre, e.isNext = false) ∧
      r.Body = some (NopCloser (asciiBytes renamedBody)) ∧
      r.bodyBytes = asciiBytes renamedBody ∧
      r.ContentLength = 24 ∧
      r.Header.Get "Content-Length" = "24" ∧
      r.TransferEncoding = []) ∧
    Event.headerSet "Content-Length" "24" ∈
      (ServeHTTP fragLib ⟨"rewrite", some sampleConfig⟩
        (some (sampleRequest "application/json" renameBody))).trace :=
  ⟨C4_content_length_consistency fragLib ⟨"rewrite", some sampleConfig⟩
      (some (sampleRequest "application/json" renameBody))
      (asciiBytes renamedBody) (by decide),
    by decide⟩

/-- C5. Content-type gate: a request whose `Content-Type` does not contain `application/json`
in any letter case reaches the next handler as it came, after at most a read of that header:
nothing is read from the body stream and nothing of the request is written. -/
theorem C5_content_type_gate {ν : Type} (L : Lib ν) (m : RewriteRequestBody) (req : Request)
    (h : ¬ JSONContentType L req) :
    ∃ pre, ServeHTTP L m (some req) = ⟨pre ++ [.next (some req)], false⟩ ∧
      ∀ e ∈ pre, e = .headerGet "Content-Type" := by
  cases hb : req.Body with
  | none => exact ⟨[], ServeHTTP_nilBody L m req hb, by simp⟩
  | some s => exact ⟨[.headerGet "Content-Type"], ServeHTTP_notJSON L m req s hb h, by simp⟩

/-- A `text/plain` request passes through after the read of its content type. -/
theorem C5_content_type_gate_witness :
    ∃ pre, ServeHTTP fragLib ⟨"rewrite", some sampleConfig⟩
        (some (sampleRequest "text/plain" smallBody)) =
          ⟨pre ++ [.next (some (sampleRequest "text/plain" smallBody))], false⟩ ∧
      ∀ e ∈ pre, e = .headerGet "Content-Type" :=
  C5_content_type_gate fragLib ⟨"rewrite", some sampleConfig⟩
    (sampleRequest "text/plain" smallBody) (by decide)

/-- C6. Content-encoding gate: a request whose `Content-Encoding` is non-empty and is not
`identity` in any letter case reaches the next handler as it came, whatever its body and
whatever the config (a nil config included): only the two headers are read. -/
theorem C6_content_encoding_gate {ν : Type} (L : Lib ν) (m : RewriteRequestBody)
    (req : Request) (h1 : req.Header.Get "Content-Encoding" ≠ "")
    (h2 : L.ToLower (req.Header.Get "Content-Encoding") ≠ "identity") :
    ∃ pre, ServeHTTP L m (some req) = ⟨pre ++ [.next (some req)], false⟩ ∧
      ∀ e ∈ pre, e = .headerGet "Content-Type" ∨ e = .headerGet "Content-Encoding" := by
  have henc : ¬ IdentityEncoding L req := by
    rintro (h | h)
    · exact h1 h
    · exact h2 h
  cases hb : req.Body with
  | none => exact ⟨[], ServeHTTP_nilBody L m req hb, by simp⟩
  | some s =>
    by_cases hct : JSONContentType L req
    · exact ⟨[.headerGet "Content-Type", .headerGet "Content-Encoding"],
        ServeHTTP_encoded L m req s hb hct henc, by simp⟩
    · exact ⟨[.headerGet "Content-Type"], ServeHTTP_notJSON L m req s hb hct, by simp⟩

/-- A request encoded as `GZip` passes through, here with a nil config. -/
theorem C6_content_encoding_gate_witness :
    ∃ pre, ServeHTTP fragLib ⟨"rewrite", none⟩
        (some (encodedRequest "application/json" "GZip" smallBody)) =
          ⟨pre ++ [.next (some (encodedRequest "application/json" "GZip" smallBody))],
            false⟩ ∧
      ∀ e ∈ pre, e = .headerGet "Content-Type" ∨ e = .headerGet "Content-Encoding" :=
  C6_content_encoding_gate fragLib ⟨"rewrite", none⟩
    (encodedRequest "application/json" "GZip" smallBody) (by decide) (by decide)

/-- C7. Configuration gate: when the trimmed `OldKey` is empty, or the trimmed `NewKey` is
empty, or the two are equal, every request (nil or not, whatever its body) reaches the next
handler as it came: only the two headers and the config are read. -/
theorem C7_config_gate {ν : Type} (L : Lib ν) (name : String) (cfg : Config)
    (req : Option Request)
    (h : TrimSpace cfg.OldKey = "" ∨ TrimSpace cfg.NewKey = "" ∨
      TrimSpace cfg.OldKey = TrimSpace cfg.NewKey) :
    ∃ pre, ServeHTTP L ⟨name, some cfg⟩ req = ⟨pre ++ [.next req], false⟩ ∧
      ∀ e ∈ pre, e = .headerGet "Content-Type" ∨ e = .headerGet "Content-Encoding"
        ∨ e = .configRead := by
  have hv : ¬ ValidConfig cfg := by
    rintro ⟨h1, h2, h3⟩
    rcases h with h | h | h
    · exact h1 h
    · exact h2 h
    · exact h3 h
  rcases ServeHTTP_cases L ⟨name, some cfg⟩ req with hc | hc | hc | hc
  · exact hc
  · obtain ⟨r0, s, n, hreq, hb, hf, hrun⟩ := hc
    subst hreq
    exfalso
    by_cases hct : JSONContentType L r0
    · by_cases henc : IdentityEncoding L r0
      · rw [ServeHTTP_invalidConfig L ⟨name, some cfg⟩ cfg r0 s rfl hb hct henc hv] at hrun
        simp at hrun
      · rw [ServeHTTP_encoded L ⟨name, some cfg⟩ r0 s hb hct henc] at hrun
        simp at hrun
    · rw [ServeHTTP_notJSON L ⟨name, some cfg⟩ r0 s hb hct] at hrun
      simp at hrun
  · exact absurd hc.1 (by simp)
  · obtain ⟨pre, r0, s, cfg2, hm, _, _, _, hcfg, _, he, _⟩ := hc
    have : cfg2 = cfg := by
      simp at hcfg
      exact hcfg.symm
    subst this
    exact absurd he.2.2 hv

/-- The keys ` id ` and `id` are equal after trimming: the request passes through. -/
theorem C7_config_gate_witness :
    ∃ pre, ServeHTTP fragLib ⟨"rewrite", some ⟨" id ", "id"⟩⟩
        (some (sampleRequest "application/json" idBody)) =
          ⟨pre ++ [.next (some (sampleRequest "application/json" idBody))], false⟩ ∧
      ∀ e ∈ pre, e = .headerGet "Content-Type" ∨ e = .headerGet "Content-Encoding"
        ∨ e = .configRead :=
  C7_config_gate fragLib "rewrite" ⟨" id ", "id"⟩
    (some (sampleRequest "application/json" idBody)) (by decide)

/-- C8. Exactly-once delegation: for every request (nil, nil body, failing read, any decode or
encode result) and every config, the run returns without a panic, its last step is the call of
the next handler, and no earlier step is such a call. -/
theorem C8_exactly_once_delegation {ν : Type} (L : Lib ν) (name : String) (cfg : Config)
    (req : Option Request) :
    ∃ pre r, ServeHTTP L ⟨name, some cfg⟩ req = ⟨pre ++ [.next r], false⟩ ∧
      (∀ e ∈ pre, e.isNext = false) ∧
      (ServeHTTP L ⟨name, some cfg⟩ req).delegated = [r] := by
  have key : ∃ pre r, ServeHTTP L ⟨name, some cfg⟩ req = ⟨pre ++ [.next r], false⟩ ∧
      (∀ e ∈ pre, e.isNext = false) := by
    rcases ServeHTTP_cases L ⟨name, some cfg⟩ req with hc | hc | hc | hc
    · obtain ⟨pre, h1, h2⟩ := hc
      refine ⟨pre, req, h1, ?_⟩
      intro e he
      rcases h2 e he with h | h | h <;> subst h <;> rfl
    · obtain ⟨r0, s, n, _, _, _, hrun⟩ := hc
      refine ⟨[.headerGet "Content-Type", .headerGet "Content-Encoding", .configRead, .readAll],
        _, hrun, ?_⟩
      intro e he
      simp at he
      rcases he with h | h | h | h <;> subst h <;> rfl
    · exact absurd hc.1 (by simp)
    · obtain ⟨pre, r0, s, cfg2, hm, _, _, _, _, _, _, hrun, hpre⟩ := hc
      generalize chosenBytes L (TrimSpace cfg2.OldKey) (TrimSpace cfg2.NewKey) s.data = b
        at hrun
      refine ⟨pre ++ [.setBody b, .setContentLength (Int.ofNat b.length),
        .headerSet "Content-Length" (FormatInt (Int.ofNat b.length)),
        .clearTransferEncoding], some (withBody r0 hm b), ?_, ?_⟩
      · rw [hrun]
        simp
      · intro e he
        rcases List.mem_append.mp he with h | h
        · exact (hpre e h).1
        · simp at h
          rcases h with h | h | h | h <;> subst h <;> rfl
  obtain ⟨pre, r, h1, h2⟩ := key
  exact ⟨pre, r, h1, h2, by rw [h1]; exact delegated_append_next pre r false h2⟩

/-- C9. Idempotence: for an eligible request whose body is read to its end, handing the request
that the next handler received to the handler again, with the same config, delivers the same
body bytes, and in fact the very same request: the second pass changes nothing.  In particular
a body that decodes to an object without the trimmed `OldKey` comes out of the first pass
unchanged.  The hypothesis `hrt` is the contract of `encoding/json` at this document: decoding
the encoding of the renamed map gives that map back. -/
theorem C9_idempotent {ν : Type} (L : Lib ν) (name : String) (cfg : Config)
    (req : Request) (s : Stream)
    (hb : req.Body = some s) (hr : s.failAt = none) (he : Eligible L cfg req)
    (hrt : ∀ obj val nb, L.Unmarshal s.data = some (.object obj) →
      mapGet obj (TrimSpace cfg.OldKey) = some val →
      L.Marshal (renamed obj (TrimSpace cfg.OldKey) (TrimSpace cfg.NewKey) val) = some nb →
      ∃ obj2, L.Unmarshal nb = some (.object obj2) ∧
        ∀ k, mapGet obj2 k =
          mapGet (renamed obj (TrimSpace cfg.OldKey) (TrimSpace cfg.NewKey) val) k) :
    ∃ r1 r2, (ServeHTTP L ⟨name, some cfg⟩ (some req)).delegated = [some r1] ∧
      (ServeHTTP L ⟨name, some cfg⟩ (some r1)).delegated = [some r2] ∧
      r2.bodyBytes = r1.bodyBytes ∧ r2 = r1 ∧
      (∀ obj, L.Unmarshal s.data = some (.object obj) →
        mapGet obj (TrimSpace cfg.OldKey) = none → r1.bodyBytes = req.bodyBytes) := by
  obtain ⟨hm, hh, h1, _⟩ := forwarded_eligible L name cfg req s hb hr he
  have he1 := eligible_withBody L cfg req hm
    (chosenBytes L (TrimSpace cfg.OldKey) (TrimSpace cfg.NewKey) s.data) hh he
  obtain ⟨hm1, hh1, h2, _⟩ := forwarded_eligible L name cfg
    (withBody req hm (chosenBytes L (TrimSpace cfg.OldKey) (TrimSpace cfg.NewKey) s.data))
    (NopCloser (chosenBytes L (TrimSpace cfg.OldKey) (TrimSpace cfg.NewKey) s.data))
    rfl rfl he1
  have hidem := chosenBytes_idem L (TrimSpace cfg.OldKey) (TrimSpace cfg.NewKey) s.data hrt
  have hdata : (NopCloser (chosenBytes L (TrimSpace cfg.OldKey) (TrimSpace cfg.NewKey)
      s.data)).data = chosenBytes L (TrimSpace cfg.OldKey) (TrimSpace cfg.NewKey) s.data := rfl
  rw [hdata, hidem] at h2
  have hm1eq : hm1 = mapSet hm "Content-Length" [FormatInt (Int.ofNat
      (chosenBytes L (TrimSpace cfg.OldKey) (TrimSpace cfg.NewKey) s.data).length)] := by
    simp only [withBody] at hh1
    injection hh1 with hh1
    exact hh1.symm
  have hsame : withBody (withBody req hm
        (chosenBytes L (TrimSpace cfg.OldKey) (TrimSpace cfg.NewKey) s.data)) hm1
        (chosenBytes L (TrimSpace cfg.OldKey) (TrimSpace cfg.NewKey) s.data) =
      withBody req hm (chosenBytes L (TrimSpace cfg.OldKey) (TrimSpace cfg.NewKey) s.data) := by
    rw [hm1eq]
    simp only [withBody, mapSet_mapSet]
  refine ⟨_, _, h1, h2, ?_, hsame, ?_⟩
  · rw [hsame]
  · intro obj hu hg
    rw [chosenBytes_of_absent L _ _ s.data obj hu hg]
    simp [Request.bodyBytes, withBody, hb, Stream.remaining, hr, NopCloser]

/-- The second pass over the request produced from `renameBody` changes nothing. -/
theorem C9_idempotent_witness :
    ∃ r1 r2, (ServeHTTP fragLib ⟨"rewrite", some sampleConfig⟩
        (some (sampleRequest "application/json" renameBody))).delegated
          = [some r1] ∧
      (ServeHTTP fragLib ⟨"rewrite", some sampleConfig⟩ (some r1)).delegated = [some r2] ∧
      r2.bodyBytes = r1.bodyBytes ∧ r2 = r1 ∧
      (∀ obj, fragLib.Unmarshal (asciiBytes renameBody) = some (.object obj) →
        mapGet obj (TrimSpace sampleConfig.OldKey) = none →
        r1.bodyBytes = (sampleRequest "application/json" renameBody).bodyBytes) :=
  C9_idempotent fragLib "rewrite" sampleConfig
    (sampleRequest "application/json" renameBody)
    { data := asciiBytes renameBody, failAt := none, closed := 0 }
    rfl rfl (by decide) (by
      intro obj val nb hu hg hmar
      have hu0 : fragLib.Unmarshal (asciiBytes renameBody) =
          some (.object [("name", .string "a"), ("user_id", .number 42)]) := rfl
      have hobj : obj = [("name", .string "a"), ("user_id", .number 42)] := by
        have h := hu.symm.trans hu0
        injection h with h
        injection h
      subst hobj
      have hval : val = .number 42 := by
        have h0 : mapGet [("name", Value.string "a"), ("user_id", Value.number (42 : Int))]
            (TrimSpace sampleConfig.OldKey) = some (.number 42) := rfl
        have h := hg.symm.trans h0
        injection h
      subst hval
      have hnb : nb = asciiBytes renamedBody := by
        have h0 : fragLib.Marshal (renamed
            [("name", Value.string "a"), ("user_id", Value.number (42 : Int))]
            (TrimSpace sampleConfig.OldKey) (TrimSpace sampleConfig.NewKey) (.number 42)) =
            some (asciiBytes renamedBody) := rfl
        have h := hmar.symm.trans h0
        injection h
      subst hnb
      exact ⟨[("userId", .number 42), ("name", .string "a")], rfl, fun _ => rfl⟩)

/-- C10. Overwrite on collision: for an eligible request whose body is read to its end and
decodes to an object holding both the trimmed `OldKey` (value `V`) and the trimmed `NewKey`
(value `W`), the body handed to the next handler decodes to an object in which `NewKey` maps to
`V`, `OldKey` is absent, every other key has the value it had, and which has exactly one key
fewer than the original.  The hypotheses `hnb`, `hmar`, `hrt` and `heq` are the contract of
`encoding/json` at this document. -/
theorem C10_overwrite_on_collision {ν : Type} (L : Lib ν) (name : String) (cfg : Config)
    (req : Request) (s : Stream) (obj obj2 : List (String × Value ν)) (V W : Value ν)
    (newBytes : Bytes)
    (hb : req.Body = some s) (hr : s.failAt = none) (he : Eligible L cfg req)
    (hu : L.Unmarshal s.data = some (.object obj))
    (hV : mapGet obj (TrimSpace cfg.OldKey) = some V)
    (hW : mapGet obj (TrimSpace cfg.NewKey) = some W)
    (hnb : (bytesTrimSpace s.data).length ≠ 0)
    (hmar : L.Marshal (renamed obj (TrimSpace cfg.OldKey) (TrimSpace cfg.NewKey) V)
      = some newBytes)
    (hrt : L.Unmarshal newBytes = some (.object obj2))
    (heq : ∀ k, mapGet obj2 k =
      mapGet (renamed obj (TrimSpace cfg.OldKey) (TrimSpace cfg.NewKey) V) k) :
    ∃ r, (ServeHTTP L ⟨name, some cfg⟩ (some req)).delegated = [some r] ∧
      L.Unmarshal r.bodyBytes = some (.object obj2) ∧
      mapGet obj2 (TrimSpace cfg.NewKey) = some V ∧
      mapGet obj2 (TrimSpace cfg.OldKey) = none ∧
      (∀ k, k ≠ TrimSpace cfg.OldKey → k ≠ TrimSpace cfg.NewKey →
        mapGet obj2 k = mapGet obj k) ∧
      mapLen obj2 + 1 = mapLen obj := by
  obtain ⟨hm, _, h1, _⟩ := forwarded_eligible L name cfg req s hb hr he
  rw [chosenBytes_of_present L _ _ s.data newBytes obj V hnb hu hV hmar] at h1
  refine ⟨_, h1, ?_, ?_, ?_, ?_, ?_⟩
  · rw [withBody_bodyBytes]
    exact hrt
  · rw [heq, mapGet_renamed]
    simp [he.2.2.2.2]
  · rw [heq, mapGet_renamed]
    simp
  · intro k hk1 hk2
    rw [heq, mapGet_renamed]
    have h3 : ¬ TrimSpace cfg.OldKey = k := fun h => hk1 h.symm
    have h4 : ¬ TrimSpace cfg.NewKey = k := fun h => hk2 h.symm
    simp [h3, h4]
  · exact mapLen_renamed obj obj2 _ _ V W hV hW heq

/-- The document `collisionBody` holds both keys: `userId` ends with the value of `user_id`,
and two keys are left of three. -/
theorem C10_overwrite_on_collision_witness :
    ∃ r, (ServeHTTP fragLib ⟨"rewrite", some sampleConfig⟩
        (some (sampleRequest "application/json"
          collisionBody))).delegated = [some r] ∧
      fragLib.Unmarshal r.bodyBytes =
        some (.object [("userId", .number 42), ("name", .string "a")]) ∧
      mapGet [("userId", Value.number (42 : Int)), ("name", .string "a")]
        (TrimSpace sampleConfig.NewKey) = some (.number 42) ∧
      mapGet [("userId", Value.number (42 : Int)), ("name", .string "a")]
        (TrimSpace sampleConfig.OldKey) = none ∧
      (∀ k, k ≠ TrimSpace sampleConfig.OldKey → k ≠ TrimSpace sampleConfig.NewKey →
        mapGet [("userId", Value.number (42 : Int)), ("name", .string "a")] k =
          mapGet [("name", Value.string "a"), ("userId", .number 7), ("user_id", .number 42)]
            k) ∧
      mapLen [("userId", Value.number (42 : Int)), ("name", .string "a")] + 1 =
        mapLen [("name", Value.string "a"), ("userId", .number 7), ("user_id", .number 42)] :=
  C10_overwrite_on_collision fragLib "rewrite" sampleConfig
    (sampleRequest "application/json" collisionBody)
    { data := asciiBytes collisionBody, failAt := none,
      closed := 0 }
    [("name", .string "a"), ("userId", .number 7), ("user_id", .number 42)]
    [("userId", .number 42), ("name", .string "a")] (.number 42) (.number 7)
    (asciiBytes renamedBody)
    rfl rfl (by decide) rfl rfl rfl (by decide) rfl rfl (fun _ => rfl)

/-- C11. The example of the specification: with config `user_id` to `userId`, content type
`application/json` and body `{"user_id":42,"name":"a"}`, the body handed to the next handler
decodes to an object with exactly the two keys `userId`, holding the number 42, and `name`,
holding the string `a`, and the `Content-Length` header is the decimal numeral of the byte
count of that body (`toString` of the natural number).  The hypotheses `hlow`, `hu`, `hobj`,
`hmar`, `hrt` and `heq` say what `strings.ToLower` and `encoding/json` do on this input. -/
theorem C11_spec_example {ν : Type} (L : Lib ν) (name : String) (req : Request) (s : Stream)
    (obj obj2 : List (String × Value ν)) (n42 : ν) (newBytes : Bytes)
    (hb : req.Body = some s) (hr : s.failAt = none) (hdata : s.data = asciiBytes renameBody)
    (hct : req.Header.Get "Content-Type" = "application/json")
    (hce : req.Header.Get "Content-Encoding" = "")
    (hlow : L.ToLower "application/json" = "application/json")
    (hu : L.Unmarshal (asciiBytes renameBody) = some (.object obj))
    (hobj : ∀ k, mapGet obj k =
      if k = "user_id" then some (.number n42)
      else if k = "name" then some (.string "a") else none)
    (hmar : L.Marshal (renamed obj "user_id" "userId" (.number n42)) = some newBytes)
    (hrt : L.Unmarshal newBytes = some (.object obj2))
    (heq : ∀ k, mapGet obj2 k = mapGet (renamed obj "user_id" "userId" (.number n42)) k) :
    ∃ r, (ServeHTTP L ⟨name, some ⟨"user_id", "userId"⟩⟩ (some req)).delegated
        = [some r] ∧
      r.bodyBytes = newBytes ∧
      L.Unmarshal r.bodyBytes = some (.object obj2) ∧
      (∀ k, mapGet obj2 k =
        if k = "userId" then some (.number n42)
        else if k = "name" then some (.string "a") else none) ∧
      mapLen obj2 = 2 ∧
      r.ContentLength = Int.ofNat r.bodyBytes.length ∧
      r.Header.Get "Content-Length" = toString r.bodyBytes.length := by
  have hfmt : ∀ n : Nat, FormatInt (Int.ofNat n) = toString n := by
    intro n
    have hpos : ¬ ((n : Int) < 0) := by omega
    simp [FormatInt, hpos]
    rfl
  have ht1 : TrimSpace "user_id" = "user_id" := by decide
  have ht2 : TrimSpace "userId" = "userId" := by decide
  have he : Eligible L ⟨"user_id", "userId"⟩ req := by
    refine ⟨?_, Or.inl hce, ?_⟩
    · unfold JSONContentType
      rw [hct, hlow]
      decide
    · decide
  have hnb : (bytesTrimSpace s.data).length ≠ 0 := by
    rw [hdata]
    decide
  have hV : mapGet obj "user_id" = some (.number n42) := by
    rw [hobj]
    simp
  obtain ⟨hm, _, h1, _⟩ := forwarded_eligible L name ⟨"user_id", "userId"⟩ req s hb hr he
  simp only [ht1, ht2] at h1
  rw [chosenBytes_of_present L "user_id" "userId" s.data newBytes obj (.number n42) hnb
    (by rw [hdata]; exact hu) hV hmar] at h1
  have hkeys : ∀ k, mapGet obj2 k =
      if k = "userId" then some (.number n42)
      else if k = "name" then some (.string "a") else none := by
    intro k
    rw [heq, mapGet_renamed, hobj]
    by_cases h3 : k = "user_id"
    · subst h3
      simp
    · by_cases h4 : k = "userId"
      · subst h4
        simp
      · have h5 : ¬ "user_id" = k := fun h => h3 h.symm
        have h6 : ¬ "userId" = k := fun h => h4 h.symm
        simp [h3, h4, h5, h6]
  refine ⟨_, h1, rfl, ?_, hkeys, ?_, rfl, ?_⟩
  · rw [withBody_bodyBytes]
    exact hrt
  · apply mapLen_of_two obj2 "userId" "name" (by decide)
    intro k
    rw [hkeys]
    by_cases h4 : k = "userId"
    · simp [h4]
    · by_cases h5 : k = "name"
      · simp [h5]
      · simp [h4, h5]
  · rw [withBody_bodyBytes, ← hfmt]
    exact Header.Get_mapSet_self hm "Content-Length" _

/-- The example run with the fragment codec: the next handler reads `renamedBody`, with
`ContentLength` 24 and the `Content-Length` header `24`. -/
theorem C11_spec_example_witness :
    (∃ r, (ServeHTTP fragLib ⟨"rewrite", some ⟨"user_id", "userId"⟩⟩
        (some (sampleRequest "application/json" renameBody))).delegated = [some r] ∧
      r.bodyBytes = asciiBytes renamedBody ∧
      fragLib.Unmarshal r.bodyBytes =
        some (.object [("userId", .number 42), ("name", .string "a")]) ∧
      (∀ k, mapGet [("userId", Value.number (42 : Int)), ("name", .string "a")] k =
        if k = "userId" then some (.number 42)
        else if k = "name" then some (.string "a") else none) ∧
      mapLen [("userId", Value.number (42 : Int)), ("name", .string "a")] = 2 ∧
      r.ContentLength = 24 ∧
      r.Header.Get "Content-Length" = "24") ∧
    Event.headerSet "Content-Length" "24" ∈
      (ServeHTTP fragLib ⟨"rewrite", some ⟨"user_id", "userId"⟩⟩
        (some (sampleRequest "application/json" renameBody))).trace := by
  obtain ⟨r, h1, h2, h3, h4, h5, h6, h7⟩ :=
    C11_spec_example fragLib "rewrite" (sampleRequest "application/json" renameBody)
      { data := asciiBytes renameBody, failAt := none, closed := 0 }
      [("name", .string "a"), ("user_id", .number 42)]
      [("userId", .number 42), ("name", .string "a")] 42 (asciiBytes renamedBody)
      rfl rfl rfl (by decide) (by decide) (by decide) rfl
      (by
        intro k
        by_cases h1 : k = "user_id"
        · subst h1
          rfl
        · by_cases h2 : k = "name"
          · subst h2
            rfl
          · have h3 : ¬ "name" = k := fun h => h2 h.symm
            have h4 : ¬ "user_id" = k := fun h => h1 h.symm
            simp [mapGet, h1, h2, h3, h4])
      rfl rfl (fun _ => rfl)
  refine ⟨⟨r, h1, h2, h3, h4, h5, ?_, ?_⟩, by decide⟩
  · rw [h6, h2]
    rfl
  · rw [h7, h2]
    rfl

/-- C12. Key matching is exact on the trimmed configured name: the handler looks up the
trimmed `OldKey` among the keys of the object by string equality, keys of the object being
neither trimmed nor case-folded.  When no key of the object is equal to the trimmed `OldKey`
(keys that differ from it by letter case or surrounding white space may be present) the body
is forwarded byte-identical; when one is, the forwarded body is the encoding of the object
with that entry moved to the trimmed `NewKey`. -/
theorem C12_exact_key_match {ν : Type} (L : Lib ν) (name : String) (cfg : Config)
    (req : Request) (s : Stream) (obj : List (String × Value ν))
    (hb : req.Body = some s) (hr : s.failAt = none) (he : Eligible L cfg req)
    (hu : L.Unmarshal s.data = some (.object obj))
    (hnb : (bytesTrimSpace s.data).length ≠ 0) :
    ∃ r, (ServeHTTP L ⟨name, some cfg⟩ (some req)).delegated = [some r] ∧
      ((∀ k ∈ obj.map Prod.fst, k ≠ TrimSpace cfg.OldKey) → r.bodyBytes = req.bodyBytes) ∧
      (∀ V nb, TrimSpace cfg.OldKey ∈ obj.map Prod.fst →
        mapGet obj (TrimSpace cfg.OldKey) = some V →
        L.Marshal (renamed obj (TrimSpace cfg.OldKey) (TrimSpace cfg.NewKey) V) = some nb →
        r.bodyBytes = nb) := by
  obtain ⟨hm, _, h1, _⟩ := forwarded_eligible L name cfg req s hb hr he
  refine ⟨_, h1, ?_, ?_⟩
  · intro hno
    have hg : mapGet obj (TrimSpace cfg.OldKey) = none := by
      by_contra hcon
      exact hno _ ((mem_keys_iff obj _).mpr hcon) rfl
    rw [chosenBytes_of_absent L _ _ s.data obj hu hg]
    simp [Request.bodyBytes, withBody, hb, Stream.remaining, hr, NopCloser]
  · intro V nb _ hV hmar
    rw [chosenBytes_of_present L _ _ s.data nb obj V hnb hu hV hmar]
    rfl

/-- With `OldKey` set to ` a ` and `NewKey` to ` b `: the document `variantBody`, whose keys are
`A` and ` a `, is forwarded as it is, and in `exactBody` the key `a` becomes `b`. -/
theorem C12_exact_key_match_witness :
    (∃ r, (ServeHTTP fragLib ⟨"rewrite", some ⟨" a ", " b "⟩⟩
        (some (sampleRequest "application/json" variantBody))).delegated = [some r] ∧
      r.bodyBytes = asciiBytes variantBody) ∧
    (∃ r, (ServeHTTP fragLib ⟨"rewrite", some ⟨" a ", " b "⟩⟩
        (some (sampleRequest "application/json" exactBody))).delegated = [some r] ∧
      r.bodyBytes = asciiBytes exactRenamedBody) := by
  constructor
  · obtain ⟨r, h1, h2, _⟩ := C12_exact_key_match fragLib "rewrite" ⟨" a ", " b "⟩
      (sampleRequest "application/json" variantBody)
      { data := asciiBytes variantBody, failAt := none, closed := 0 }
      [(" a ", .number 2), ("A", .number 1)] rfl rfl (by decide) rfl (by decide)
    exact ⟨r, h1, h2 (by decide)⟩
  · obtain ⟨r, h1, _, h3⟩ := C12_exact_key_match fragLib "rewrite" ⟨" a ", " b "⟩
      (sampleRequest "application/json" exactBody)
      { data := asciiBytes exactBody, failAt := none, closed := 0 }
      [("a", .number 1)] rfl rfl (by decide) rfl (by decide)
    exact ⟨r, h1, h3 (.number 1) (asciiBytes exactRenamedBody) (by decide) rfl rfl⟩

/-- C13. Empty-body short-circuit: for an eligible request whose body is read to its end and is
empty or consists of white space only, the run is exactly: the two header reads, the config
read, the read and the close of the body, the installation of the bytes read and the call of
the next handler.  No decode is attempted, the next handler reads the original bytes with
their white space, and `ContentLength` and the `Content-Length` header are their count. -/
theorem C13_empty_body_short_circuit {ν : Type} (L : Lib ν) (name : String) (cfg : Config)
    (req : Request) (s : Stream)
    (hb : req.Body = some s) (hr : s.failAt = none) (he : Eligible L cfg req)
    (hws : WhiteSpaceOnly s.data) :
    ∃ r, ServeHTTP L ⟨name, some cfg⟩ (some req) =
        ⟨[.headerGet "Content-Type", .headerGet "Content-Encoding", .configRead, .readAll,
          .close ({ s with data := [] } : Stream).Close, .setBody s.data,
          .setContentLength (Int.ofNat s.data.length),
          .headerSet "Content-Length" (toString s.data.length),
          .clearTransferEncoding, .next (some r)], false⟩ ∧
      Event.unmarshal ∉ (ServeHTTP L ⟨name, some cfg⟩ (some req)).trace ∧
      r.Body = some (NopCloser s.data) ∧ r.bodyBytes = req.bodyBytes ∧
      r.ContentLength = Int.ofNat s.data.length ∧
      r.Header.Get "Content-Length" = toString s.data.length := by
  have hfmt : ∀ n : Nat, FormatInt (Int.ofNat n) = toString n := by
    intro n
    have hpos : ¬ ((n : Int) < 0) := by omega
    simp [FormatInt, hpos]
    rfl
  obtain ⟨hm, hh⟩ := header_of_jsonContentType L req he.1
  have hblank : (bytesTrimSpace s.data).length = 0 := by
    rw [bytesTrimSpace_whiteSpaceOnly s.data hws]
    rfl
  have hrun := ServeHTTP_eligible_trace L ⟨name, some cfg⟩ cfg req s hm rfl hb hr hh he
  rw [codecEvents_of_blank L _ s.data hblank, chosenBytes_of_blank L _ _ s.data hblank] at hrun
  refine ⟨withBody req hm s.data, ?_, ?_, rfl, ?_, rfl, ?_⟩
  · rw [hrun, hfmt]
    rfl
  · rw [hrun]
    simp
  · simp [Request.bodyBytes, withBody, hb, Stream.remaining, hr, NopCloser]
  · rw [← hfmt]
    exact Header.Get_mapSet_self hm "Content-Length" _

/-- The body `blankBody` is installed again as it is, with `ContentLength` 5 and the
`Content-Length` header `5`. -/
theorem C13_empty_body_short_circuit_witness :
    (∃ r, ServeHTTP fragLib ⟨"rewrite", some sampleConfig⟩
        (some (sampleRequest "application/json" blankBody)) =
        ⟨[.headerGet "Content-Type", .headerGet "Content-Encoding", .configRead, .readAll,
          .close ({ data := [], failAt := none, closed := 0 } : Stream).Close,
          .setBody (asciiBytes blankBody), .setContentLength 5,
          .headerSet "Content-Length" "5", .clearTransferEncoding, .next (some r)], false⟩ ∧
      Event.unmarshal ∉ (ServeHTTP fragLib ⟨"rewrite", some sampleConfig⟩
        (some (sampleRequest "application/json" blankBody))).trace ∧
      r.Body = some (NopCloser (asciiBytes blankBody)) ∧
      r.bodyBytes = (sampleRequest "application/json" blankBody).bodyBytes ∧
      r.ContentLength = 5 ∧
      r.Header.Get "Content-Length" = "5") ∧
    Event.headerSet "Content-Length" "5" ∈
      (ServeHTTP fragLib ⟨"rewrite", some sampleConfig⟩
        (some (sampleRequest "application/json" blankBody))).trace :=
  ⟨C13_empty_body_short_circuit fragLib "rewrite" sampleConfig
      (sampleRequest "application/json" blankBody)
      { data := asciiBytes blankBody, failAt := none, closed := 0 } rfl rfl (by decide)
      (WhiteSpaceOnly.cons [0x20] _ (by decide)
        (WhiteSpaceOnly.cons [0x20] _ (by decide)
          (WhiteSpaceOnly.cons [0x0A] _ (by decide)
            (WhiteSpaceOnly.cons [0x09] _ (by decide)
              (WhiteSpaceOnly.cons [0x20] _ (by decide) WhiteSpaceOnly.nil))))),
    by decide⟩

/-- C14. Encode-failure rollback: for an eligible request whose body is read to its end and
decodes to an object holding the trimmed `OldKey`, when the encoding of the renamed map fails
the next handler gets a fresh reader over the bytes that were read, with `ContentLength` and
the `Content-Length` header equal to their count, and no other body is ever installed. -/
theorem C14_encode_failure_rollback {ν : Type} (L : Lib ν) (name : String) (cfg : Config)
    (req : Request) (s : Stream) (obj : List (String × Value ν)) (V : Value ν)
    (hb : req.Body = some s) (hr : s.failAt = none) (he : Eligible L cfg req)
    (hu : L.Unmarshal s.data = some (.object obj))
    (hV : mapGet obj (TrimSpace cfg.OldKey) = some V)
    (hmar : L.Marshal (renamed obj (TrimSpace cfg.OldKey) (TrimSpace cfg.NewKey) V) = none) :
    ∃ r, (ServeHTTP L ⟨name, some cfg⟩ (some req)).delegated = [some r] ∧
      r.Body = some (NopCloser s.data) ∧ r.bodyBytes = req.bodyBytes ∧
      r.ContentLength = Int.ofNat s.data.length ∧
      r.Header.Get "Content-Length" = toString s.data.length ∧
      ∀ b, Event.setBody b ∈ (ServeHTTP L ⟨name, some cfg⟩ (some req)).trace →
        b = s.data := by
  have hfmt : ∀ n : Nat, FormatInt (Int.ofNat n) = toString n := by
    intro n
    have hpos : ¬ ((n : Int) < 0) := by omega
    simp [FormatInt, hpos]
    rfl
  obtain ⟨hm, hh, h1, _⟩ := forwarded_eligible L name cfg req s hb hr he
  have hcb := chosenBytes_of_encodeError L (TrimSpace cfg.OldKey) (TrimSpace cfg.NewKey)
    s.data obj V hu hV hmar
  rw [hcb] at h1
  refine ⟨_, h1, rfl, ?_, rfl, ?_, ?_⟩
  · simp [Request.bodyBytes, withBody, hb, Stream.remaining, hr, NopCloser]
  · rw [← hfmt]
    exact Header.Get_mapSet_self hm "Content-Length" _
  · intro b hmem
    rw [← hcb]
    exact setBody_mem_eligible L ⟨name, some cfg⟩ cfg req s hm rfl hb hr hh he b hmem

/-- With an encoder that always fails, the document `renameBody` is forwarded as it is, with
`ContentLength` 25 and the `Content-Length` header `25`. -/
theorem C14_encode_failure_rollback_witness :
    (∃ r, (ServeHTTP failingLib ⟨"rewrite", some sampleConfig⟩
        (some (sampleRequest "application/json" renameBody))).delegated = [some r] ∧
      r.Body = some (NopCloser (asciiBytes renameBody)) ∧
      r.bodyBytes = (sampleRequest "application/json" renameBody).bodyBytes ∧
      r.ContentLength = 25 ∧
      r.Header.Get "Content-Length" = "25" ∧
      ∀ b, Event.setBody b ∈ (ServeHTTP failingLib ⟨"rewrite", some sampleConfig⟩
        (some (sampleRequest "application/json" renameBody))).trace →
        b = asciiBytes renameBody) ∧
    Event.headerSet "Content-Length" "25" ∈
      (ServeHTTP failingLib ⟨"rewrite", some sampleConfig⟩
        (some (sampleRequest "application/json" renameBody))).trace :=
  ⟨C14_encode_failure_rollback failingLib "rewrite" sampleConfig
      (sampleRequest "application/json" renameBody)
      { data := asciiBytes renameBody, failAt := none, closed := 0 }
      [("name", .string "a"), ("user_id", .number 42)] (.number 42)
      rfl rfl (by decide) rfl rfl rfl,
    by decide⟩

/-- C15. Body-read failure: for an eligible request whose body read ends with an error after
`n` bytes, the run is the two header reads, the config read, the read, and the call of the
next handler; it returns without a panic.  The request of that call is the request that came
in, with its own stream in the state the failed read left it in (not closed, no replacement):
headers, `ContentLength`, `TransferEncoding` and the other fields are unchanged. -/
theorem C15_body_read_failure {ν : Type} (L : Lib ν) (name : String) (cfg : Config)
    (req : Request) (s : Stream) (n : Nat)
    (hb : req.Body = some s) (hf : s.failAt = some n) (he : Eligible L cfg req) :
    ∃ r, ServeHTTP L ⟨name, some cfg⟩ (some req) =
        ⟨[.headerGet "Content-Type", .headerGet "Content-Encoding", .configRead, .readAll,
          .next (some r)], false⟩ ∧
      r.Body = some { s with data := s.data.drop n, failAt := some 0 } ∧
      r.Header = req.Header ∧ r.ContentLength = req.ContentLength ∧
      r.TransferEncoding = req.TransferEncoding ∧ r.Method = req.Method ∧ r.URL = req.URL :=
  ⟨{ req with Body := some { s with data := s.data.drop n, failAt := some 0 } },
    ServeHTTP_readError L ⟨name, some cfg⟩ cfg req s n rfl hb hf he, rfl, rfl, rfl, rfl, rfl,
    rfl⟩

/-- A body that breaks after three bytes: the request goes on with the rest of its stream. -/
theorem C15_body_read_failure_witness :
    ∃ r, ServeHTTP fragLib ⟨"rewrite", some sampleConfig⟩
        (some (brokenRequest "application/json" renameBody 3)) =
        ⟨[.headerGet "Content-Type", .headerGet "Content-Encoding", .configRead, .readAll,
          .next (some r)], false⟩ ∧
      r.Body = some { data := (asciiBytes renameBody).drop 3, failAt := some 0, closed := 0 } ∧
      r.Header = (brokenRequest "application/json" renameBody 3).Header ∧
      r.ContentLength = (brokenRequest "application/json" renameBody 3).ContentLength ∧
      r.TransferEncoding = (brokenRequest "application/json" renameBody 3).TransferEncoding ∧
      r.Method = (brokenRequest "application/json" renameBody 3).Method ∧
      r.URL = (brokenRequest "application/json" renameBody 3).URL :=
  C15_body_read_failure fragLib "rewrite" sampleConfig
    (brokenRequest "application/json" renameBody 3)
    { data := asciiBytes renameBody, failAt := some 3, closed := 0 } 3 rfl rfl (by decide)

/-- C16. Frame condition: the request handed to the next handler has the method, the URL and
every header entry other than `Content-Length` (so `Content-Type` and `Content-Encoding` too)
of the request that came in, and every write of the run is an assignment of the body, of
`ContentLength`, of the `Content-Length` header or of `TransferEncoding`.  The middleware value
with its config is an input of the run that no step assigns. -/
theorem C16_frame_condition {ν : Type} (L : Lib ν) (m : RewriteRequestBody) (req r : Request)
    (h : some r ∈ (ServeHTTP L m (some req)).delegated) :
    r.Method = req.Method ∧ r.URL = req.URL ∧
      (∀ k, k ≠ "Content-Length" → r.Header.entry k = req.Header.entry k) ∧
      r.Header.Get "Content-Type" = req.Header.Get "Content-Type" ∧
      r.Header.Get "Content-Encoding" = req.Header.Get "Content-Encoding" ∧
      (∀ e ∈ (ServeHTTP L m (some req)).trace, e.isWrite = true →
        (∃ b, e = .setBody b) ∨ (∃ n, e = .setContentLength n) ∨
          (∃ v, e = .headerSet "Content-Length" v) ∨ e = .clearTransferEncoding) := by
  rcases ServeHTTP_cases L m (some req) with hc | hc | hc | hc
  · obtain ⟨pre, hrun, hpre⟩ := hc
    have hquiet : ∀ e ∈ pre, e.isNext = false ∧ e.isWrite = false := by
      intro e he
      rcases hpre e he with h1 | h1 | h1 <;> subst h1 <;> exact ⟨rfl, rfl⟩
    rw [hrun, delegated_append_next pre (some req) false (fun e he => (hquiet e he).1)] at h
    simp at h
    subst h
    refine ⟨rfl, rfl, fun _ _ => rfl, rfl, rfl, ?_⟩
    intro e he hw
    rw [hrun] at he
    simp only [List.mem_append, List.mem_singleton] at he
    rcases he with he | he
    · rw [(hquiet e he).2] at hw
      cases hw
    · subst he
      cases hw
  · obtain ⟨r0, s, n, hreq, _, _, hrun⟩ := hc
    injection hreq with hreq
    subst hreq
    rw [hrun] at h
    simp [Outcome.delegated] at h
    subst h
    refine ⟨rfl, rfl, fun _ _ => rfl, rfl, rfl, ?_⟩
    intro e he hw
    rw [hrun] at he
    simp at he
    rcases he with he | he | he | he | he <;> subst he <;> cases hw
  · exfalso
    rw [hc.2] at h
    simp [Outcome.delegated] at h
  · obtain ⟨pre, r0, s, cfg, hm, hreq, _, _, _, hh, _, hrun, hpre⟩ := hc
    injection hreq with hreq
    subst hreq
    generalize chosenBytes L (TrimSpace cfg.OldKey) (TrimSpace cfg.NewKey) s.data = c
      at hrun
    have hdel : (ServeHTTP L m (some req)).delegated = [some (withBody req hm c)] := by
      rw [hrun]
      have := delegated_append_next (pre ++ [.setBody c,
        .setContentLength (Int.ofNat c.length),
        .headerSet "Content-Length" (FormatInt (Int.ofNat c.length)),
        .clearTransferEncoding]) (some (withBody req hm c)) false (by
          intro e he2
          rcases List.mem_append.mp he2 with h3 | h3
          · exact (hpre e h3).1
          · simp at h3
            rcases h3 with h3 | h3 | h3 | h3 <;> subst h3 <;> rfl)
      simpa using this
    rw [hdel] at h
    simp at h
    subst h
    refine ⟨rfl, rfl, ?_, ?_, ?_, ?_⟩
    · intro k hk
      have hk2 : ¬ "Content-Length" = k := fun h3 => hk h3.symm
      simp [withBody, Header.entry, hh, mapGet_mapSet, hk2]
    · simp only [withBody, hh]
      exact Header.Get_mapSet_ne hm _ _ _ (by decide)
    · simp only [withBody, hh]
      exact Header.Get_mapSet_ne hm _ _ _ (by decide)
    · intro e he hw
      rw [hrun] at he
      simp only [List.mem_append, List.mem_cons, List.mem_singleton] at he
      rcases he with he | he | he | he | he | he | he
      · rw [(hpre e he).2] at hw
        cases hw
      · exact Or.inl ⟨_, he⟩
      · exact Or.inr (Or.inl ⟨_, he⟩)
      · exact Or.inr (Or.inr (Or.inl ⟨_, he⟩))
      · exact Or.inr (Or.inr (Or.inr he))
      · subst he
        cases hw
      · cases he

/-- The run on `renameBody`: the request of the next handler keeps its method, URL,
`Content-Type` and `X-Trace` entries, and the run writes nothing else. -/
theorem C16_frame_condition_witness :
    (withBody (sampleRequest "application/json" renameBody)
        [("Content-Type", ["application/json"]), ("X-Trace", ["t1"])]
        (asciiBytes renamedBody)).Method = (sampleRequest "application/json" renameBody).Method ∧
      (withBody (sampleRequest "application/json" renameBody)
        [("Content-Type", ["application/json"]), ("X-Trace", ["t1"])]
        (asciiBytes renamedBody)).URL = (sampleRequest "application/json" renameBody).URL ∧
      (∀ k, k ≠ "Content-Length" →
        (withBody (sampleRequest "application/json" renameBody)
          [("Content-Type", ["application/json"]), ("X-Trace", ["t1"])]
          (asciiBytes renamedBody)).Header.entry k =
          (sampleRequest "application/json" renameBody).Header.entry k) ∧
      (withBody (sampleRequest "application/json" renameBody)
        [("Content-Type", ["application/json"]), ("X-Trace", ["t1"])]
        (asciiBytes renamedBody)).Header.Get "Content-Type" =
        (sampleRequest "application/json" renameBody).Header.Get "Content-Type" ∧
      (withBody (sampleRequest "application/json" renameBody)
        [("Content-Type", ["application/json"]), ("X-Trace", ["t1"])]
        (asciiBytes renamedBody)).Header.Get "Content-Encoding" =
        (sampleRequest "application/json" renameBody).Header.Get "Content-Encoding" ∧
      (∀ e ∈ (ServeHTTP fragLib ⟨"rewrite", some sampleConfig⟩
          (some (sampleRequest "application/json" renameBody))).trace, e.isWrite = true →
        (∃ b, e = .setBody b) ∨ (∃ n, e = .setContentLength n) ∨
          (∃ v, e = .headerSet "Content-Length" v) ∨ e = .clearTransferEncoding) :=
  C16_frame_condition fragLib ⟨"rewrite", some sampleConfig⟩
    (sampleRequest "application/json" renameBody)
    (withBody (sampleRequest "application/json" renameBody)
      [("Content-Type", ["application/json"]), ("X-Trace", ["t1"])]
      (asciiBytes renamedBody)) (by decide)

/-- C17. Stream release discipline.  On the path on which the body is read to its end, the run
starts with the two header reads, the config read, the read of the body and its close, the
stream being drained and closed once more than before; no later step reads or closes it, and
the replacement is installed in a later step.  On the gate paths (nil request, nil body,
content type, content encoding, unusable keys) no step reads or closes the stream and the
next handler gets the request as it came. -/
theorem C17_stream_release_discipline {ν : Type} (L : Lib ν) (name : String) (cfg : Config)
    (req : Request) :
    (∀ s, req.Body = some s → s.failAt = none → Eligible L cfg req →
      ∃ rest, (ServeHTTP L ⟨name, some cfg⟩ (some req)).trace =
          [.headerGet "Content-Type", .headerGet "Content-Encoding", .configRead, .readAll,
            .close { data := [], failAt := none, closed := s.closed + 1 }] ++ rest ∧
        (∀ e ∈ rest, e ≠ .readAll ∧ ∀ t, e ≠ .close t) ∧
        ∃ b, Event.setBody b ∈ rest) ∧
    ((req.Body = none ∨ ¬ Eligible L cfg req) →
      (∀ e ∈ (ServeHTTP L ⟨name, some cfg⟩ (some req)).trace,
        e ≠ .readAll ∧ ∀ t, e ≠ .close t) ∧
      (ServeHTTP L ⟨name, some cfg⟩ (some req)).delegated = [some req]) ∧
    (ServeHTTP L ⟨name, some cfg⟩ none).trace = [.next none] := by
  refine ⟨?_, ?_, rfl⟩
  · intro s hb hr he
    obtain ⟨hm, hh⟩ := header_of_jsonContentType L req he.1
    have hrun := ServeHTTP_eligible_trace L ⟨name, some cfg⟩ cfg req s hm rfl hb hr hh he
    generalize chosenBytes L (TrimSpace cfg.OldKey) (TrimSpace cfg.NewKey) s.data = c
      at hrun
    refine ⟨codecEvents L (TrimSpace cfg.OldKey) s.data ++
      [.setBody c, .setContentLength (Int.ofNat c.length),
        .headerSet "Content-Length" (FormatInt (Int.ofNat c.length)),
        .clearTransferEncoding, .next (some (withBody req hm c))], ?_, ?_, c, by simp⟩
    · rw [hrun]
      simp [Stream.Close, hr]
    · intro e he2
      rcases List.mem_append.mp he2 with h3 | h3
      · rcases codecEvents_mem L _ _ e h3 with h4 | h4 <;> subst h4 <;>
          exact ⟨by simp, by simp⟩
      · simp at h3
        rcases h3 with h4 | h4 | h4 | h4 | h4 <;> subst h4 <;> exact ⟨by simp, by simp⟩
  · intro hgate
    obtain ⟨pre, hrun, hpre⟩ := ServeHTTP_gate L name cfg req hgate
    have hquiet : ∀ e ∈ pre, e.isNext = false := by
      intro e he
      rcases hpre e he with h1 | h1 | h1 <;> subst h1 <;> rfl
    refine ⟨?_, ?_⟩
    · intro e he
      rw [hrun] at he
      simp only [List.mem_append, List.mem_singleton] at he
      rcases he with he | he
      · rcases hpre e he with h1 | h1 | h1 <;> subst h1 <;> exact ⟨by simp, by simp⟩
      · subst he
        exact ⟨by simp, by simp⟩
    · rw [hrun]
      exact delegated_append_next pre (some req) false hquiet

/-- The run on `renameBody` closes the drained stream once, before it installs a body; the run
on a `text/plain` request neither reads nor closes the stream. -/
theorem C17_stream_release_discipline_witness :
    (∃ rest, (ServeHTTP fragLib ⟨"rewrite", some sampleConfig⟩
        (some (sampleRequest "application/json" renameBody))).trace =
          [.headerGet "Content-Type", .headerGet "Content-Encoding", .configRead, .readAll,
            .close { data := [], failAt := none, closed := 0 + 1 }] ++ rest ∧
        (∀ e ∈ rest, e ≠ .readAll ∧ ∀ t, e ≠ .close t) ∧
        ∃ b, Event.setBody b ∈ rest) ∧
    ((∀ e ∈ (ServeHTTP fragLib ⟨"rewrite", some sampleConfig⟩
        (some (sampleRequest "text/plain" renameBody))).trace,
        e ≠ .readAll ∧ ∀ t, e ≠ .close t) ∧
      (ServeHTTP fragLib ⟨"rewrite", some sampleConfig⟩
        (some (sampleRequest "text/plain" renameBody))).delegated =
          [some (sampleRequest "text/plain" renameBody)]) :=
  ⟨(C17_stream_release_discipline fragLib "rewrite" sampleConfig
      (sampleRequest "application/json" renameBody)).1
      { data := asciiBytes renameBody, failAt := none, closed := 0 } rfl rfl (by decide),
    (C17_stream_release_discipline fragLib "rewrite" sampleConfig
      (sampleRequest "text/plain" renameBody)).2.1 (Or.inr (by decide))⟩

/-- C18. Nil gate: when the request is nil or its body is nil, the run is the call of the next
handler with that same request and nothing else: no header is read, the body is not read and
the config is not consulted (the middleware may even have a nil config). -/
theorem C18_nil_gate {ν : Type} (L : Lib ν) (m : RewriteRequestBody) (req : Option Request)
    (h : req = none ∨ ∃ r, req = some r ∧ r.Body = none) :
    ServeHTTP L m req = ⟨[.next req], false⟩ := by
  rcases h with h | ⟨r, h, hb⟩
  · subst h
    rfl
  · subst h
    exact ServeHTTP_nilBody L m r hb

/-- A nil request and a request without a body, given to a middleware with a nil config. -/
theorem C18_nil_gate_witness :
    ServeHTTP fragLib ⟨"rewrite", none⟩ none = ⟨[.next none], false⟩ ∧
      ServeHTTP fragLib ⟨"rewrite", none⟩ (some bodylessRequest) =
        ⟨[.next (some bodylessRequest)], false⟩ :=
  ⟨C18_nil_gate fragLib ⟨"rewrite", none⟩ none (Or.inl rfl),
    C18_nil_gate fragLib ⟨"rewrite", none⟩ (some bodylessRequest)
      (Or.inr ⟨bodylessRequest, rfl, rfl⟩)⟩

/-- C19. Implicit safety.  For a middleware built by `New` with a non-nil config, no run ends in
a panic, whatever the request (nil request, nil body and nil header map included); and whenever
a run writes a header, the header is `Content-Length`, the run began with the read of
`Content-Type`, that check succeeded, and the header map is neither nil nor empty.  For a
middleware built with a nil config, a request with a body that passes the content-type and
content-encoding gates ends in the panic of the config dereference, before any call of the
next handler. -/
theorem C19_no_nil_dereference {ν : Type} (L : Lib ν) (cfg : Config) (name : String)
    (m : RewriteRequestBody) (hnew : New (some cfg) name = .ok m) (req : Option Request) :
    (ServeHTTP L m req).panicked = false ∧
    (∀ k v, Event.headerSet k v ∈ (ServeHTTP L m req).trace →
      k = "Content-Length" ∧
      (ServeHTTP L m req).trace.head? = some (.headerGet "Content-Type") ∧
      ∃ r0 hm, req = some r0 ∧ JSONContentType L r0 ∧ r0.Header = some hm ∧ hm ≠ []) ∧
    (∀ m0 r0 s, New none name = .ok m0 → r0.Body = some s → JSONContentType L r0 →
      IdentityEncoding L r0 →
      (ServeHTTP L m0 (some r0)).panicked = true ∧
        (ServeHTTP L m0 (some r0)).delegated = []) := by
  have hm : m = ⟨name, some cfg⟩ := by
    simp only [New] at hnew
    injection hnew with hnew
    exact hnew.symm
  subst hm
  refine ⟨?_, ?_, ?_⟩
  · rcases ServeHTTP_cases L ⟨name, some cfg⟩ req with hc | hc | hc | hc
    · obtain ⟨pre, hrun, _⟩ := hc
      rw [hrun]
    · obtain ⟨r0, s, n, _, _, _, hrun⟩ := hc
      rw [hrun]
    · exact absurd hc.1 (by simp)
    · obtain ⟨pre, r0, s, cfg2, hm, _, _, _, _, _, _, hrun, _⟩ := hc
      rw [hrun]
  · intro k v hmem
    rcases ServeHTTP_cases L ⟨name, some cfg⟩ req with hc | hc | hc | hc
    · obtain ⟨pre, hrun, hpre⟩ := hc
      exfalso
      rw [hrun] at hmem
      simp only [List.mem_append, List.mem_singleton] at hmem
      rcases hmem with h | h
      · rcases hpre _ h with h3 | h3 | h3 <;> cases h3
      · cases h
    · obtain ⟨r0, s, n, _, _, _, hrun⟩ := hc
      exfalso
      rw [hrun] at hmem
      simp at hmem
    · exact absurd hc.1 (by simp)
    · obtain ⟨pre, r0, s, cfg2, hm, hreq, hb, hr, hcfg, hh, he, _, _⟩ := hc
      subst hreq
      have hrun := ServeHTTP_eligible_trace L ⟨name, some cfg⟩ cfg2 r0 s hm hcfg hb hr hh he
      generalize chosenBytes L (TrimSpace cfg2.OldKey) (TrimSpace cfg2.NewKey) s.data = c
        at hrun
      refine ⟨?_, ?_, r0, hm, rfl, he.1, hh,
        header_nonempty_of_jsonContentType L r0 hm hh he.1⟩
      · rw [hrun] at hmem
        rcases List.mem_append.mp hmem with h | h
        · rcases List.mem_append.mp h with h2 | h2
          · simp at h2
          · rcases codecEvents_mem L _ _ _ h2 with h4 | h4 <;> cases h4
        · simp at h
          exact h.1
      · rw [hrun]
        rfl
  · intro m0 r0 s hnew0 hb hct henc
    have hm0 : m0 = ⟨name, none⟩ := by
      simp only [New] at hnew0
      injection hnew0 with hnew0
      exact hnew0.symm
    subst hm0
    rcases ServeHTTP_cases L ⟨name, none⟩ (some r0) with hc | hc | hc | hc
    · obtain ⟨pre, hrun, _⟩ := hc
      exfalso
      unfold JSONContentType at hct
      unfold IdentityEncoding at henc
      have henc2 : ¬ (r0.Header.Get "Content-Encoding" ≠ "" ∧
          L.ToLower (r0.Header.Get "Content-Encoding") ≠ "identity") := by
        rintro ⟨h1, h2⟩
        rcases henc with h3 | h3
        · exact h1 h3
        · exact h2 h3
      simp only [ServeHTTP, hb, hct, Bool.not_true] at hrun
      rw [if_neg (by simp), if_neg henc2] at hrun
      injection hrun with _ hp
      cases hp
    · obtain ⟨_, s2, n, hreq, hb2, hf, hrun⟩ := hc
      exfalso
      injection hreq with hreq
      subst hreq
      unfold JSONContentType at hct
      unfold IdentityEncoding at henc
      have henc2 : ¬ (r0.Header.Get "Content-Encoding" ≠ "" ∧
          L.ToLower (r0.Header.Get "Content-Encoding") ≠ "identity") := by
        rintro ⟨h1, h2⟩
        rcases henc with h3 | h3
        · exact h1 h3
        · exact h2 h3
      simp only [ServeHTTP, hb, hct, Bool.not_true] at hrun
      rw [if_neg (by simp), if_neg henc2] at hrun
      injection hrun with _ hp
      cases hp
    · rw [hc.2]
      exact ⟨rfl, rfl⟩
    · obtain ⟨_, _, _, _, _, _, _, _, hcfg, _⟩ := hc
      cases hcfg

/-- With `sampleConfig` the run on `renameBody` does not panic and its write of
`Content-Length` comes after the content-type check over a non-empty header map; with a nil
config the same request ends in a panic and the next handler is not called. -/
theorem C19_no_nil_dereference_witness :
    (ServeHTTP fragLib ⟨"rewrite", some sampleConfig⟩
        (some (sampleRequest "application/json" renameBody))).panicked = false ∧
    ("Content-Length" = "Content-Length" ∧
      (ServeHTTP fragLib ⟨"rewrite", some sampleConfig⟩
        (some (sampleRequest "application/json" renameBody))).trace.head? =
          some (.headerGet "Content-Type") ∧
      ∃ r0 hm, some (sampleRequest "application/json" renameBody) = some r0 ∧
        JSONContentType fragLib r0 ∧ r0.Header = some hm ∧ hm ≠ []) ∧
    ((ServeHTTP fragLib ⟨"rewrite", none⟩
        (some (sampleRequest "application/json" renameBody))).panicked = true ∧
      (ServeHTTP fragLib ⟨"rewrite", none⟩
        (some (sampleRequest "application/json" renameBody))).delegated = []) :=
  ⟨(C19_no_nil_dereference fragLib sampleConfig "rewrite" ⟨"rewrite", some sampleConfig⟩ rfl
      (some (sampleRequest "application/json" renameBody))).1,
    (C19_no_nil_dereference fragLib sampleConfig "rewrite" ⟨"rewrite", some sampleConfig⟩ rfl
      (some (sampleRequest "application/json" renameBody))).2.1 "Content-Length" "24"
        (by decide),
    (C19_no_nil_dereference fragLib sampleConfig "rewrite" ⟨"rewrite", some sampleConfig⟩ rfl
      (some (sampleRequest "application/json" renameBody))).2.2 ⟨"rewrite", none⟩
        (sampleRequest "application/json" renameBody)
        { data := asciiBytes renameBody, failAt := none, closed := 0 } rfl rfl
        (by decide) (by decide)⟩

end Rewrite
